import Mathlib

/-!
Shallow embedding of the `rust-libp2p-nym` transport adapter
(`src/transport.rs`) together with the per-connection reorder queue.
The queue implementation (`queue.rs`) is not part of the sources at hand,
so it is modelled from the specification (§4.C); everything else is a
direct translation of `transport.rs`.

Modelling conventions:
* external opaque identifiers (`PeerId`, `Keypair`, `ConnectionId`,
  `AnonymousSenderTag`) are modelled as `Nat`; `Recipient` is modelled by its
  display string;
* tokio channels are modelled by the list of values sent on them, in order
  (`outbound`, `poll_events`, and the per-connection inbound demux list);
* the oneshot completion of a dial future is modelled by appending to
  `dial_resolved`;
* a function that can panic returns `Option`, with `none` standing for the
  panic.
-/

abbrev ConnectionId := Nat

abbrev PeerId := Nat

abbrev AnonymousSenderTag := Nat

/-- Recipient is the opaque mixnet address; modelled by its display string. -/
abbrev Recipient := String

abbrev Keypair := Nat

/-- Derivation of a libp2p PeerId from a keypair's public key
(`PeerId::from_public_key`); the derivation itself is external, modelled as
the identity on the opaque handle. -/
def Keypair.publicPeerId (k : Keypair) : PeerId := k

/-- Modelled from the spec (§3): the substream message kinds carried inside a
`TransportMessage` (definition lives in `message.rs`, absent from the given
sources). The transport treats the payload as opaque. -/
inductive SubstreamMessageKind where
  | OpenRequest
  | OpenResponse
  | Data (bytes : List Nat)
  | Close
deriving DecidableEq, Repr

/-- Modelled from the spec (§3): `SubstreamMessage { substream_id, kind }`
(from `message.rs`, absent from the given sources). -/
structure SubstreamMessage where
  substream_id : Nat
  kind : SubstreamMessageKind
deriving DecidableEq, Repr

/-- `ConnectionMessage` is the body of ConnectionRequest / ConnectionResponse:
a claimed peer id and the connection id. -/
structure ConnectionMessage where
  peer_id : PeerId
  id : ConnectionId
deriving DecidableEq, Repr

/-- `TransportMessage { nonce, id, message }`: a nonce-sequenced substream
frame for a connection. -/
structure TransportMessage where
  nonce : Nat
  id : ConnectionId
  message : SubstreamMessage
deriving DecidableEq, Repr

/-- The three wire envelope variants. -/
inductive Message where
  | ConnectionRequest (msg : ConnectionMessage)
  | ConnectionResponse (msg : ConnectionMessage)
  | TransportMessage (msg : TransportMessage)
deriving DecidableEq, Repr

/-- `OutboundMessage`: an envelope plus addressing, exactly as handed to the
mixnet bridge: an optional `Recipient` and an optional SURB reply tag. -/
structure OutboundMessage where
  message : Message
  recipient : Option Recipient
  sender_tag : Option AnonymousSenderTag
deriving DecidableEq, Repr

/-- The error variants of `error.rs` used by `transport.rs`. -/
inductive Error where
  | ConnectionIDExists
  | ConnectionAlreadyEstablished
  | NoConnectionForResponse
  | NoConnectionForTransportMessage
  | ConnectionSendFailure
  | InvalidProtocolForMultiaddr
  | InvalidRecipientBytes
  | OutboundSendFailure
  | InboundSendFailure
  | SendErrorTransportEvent
deriving DecidableEq, Repr

/-- One component of a multiaddress: either the `nym` component carrying a
recipient string, or any other protocol component. -/
inductive Protocol where
  | nym (addr : String)
  | other (tag : Nat)
deriving DecidableEq, Repr

/-- A multiaddress is a sequence of protocol components. -/
abbrev Multiaddr := List Protocol

/-- Modelled from the spec (§4.C): the per-connection reorder queue of
`queue.rs` (absent from the given sources).  `connectionMessageReceived`
distinguishes the armed state (`false`: collecting, releasing nothing) from
the active state (`true`: releasing in strict nonce order).  `buffered` is
the ordered structure holding out-of-order messages, kept sorted by nonce so
that its head is the buffered minimum. -/
structure MessageQueue where
  connectionMessageReceived : Bool
  nextExpected : Nat
  buffered : List TransportMessage
deriving DecidableEq, Repr

/-- Insert a message into a nonce-sorted buffer, keeping it sorted. -/
def insertByNonce (m : TransportMessage) : List TransportMessage → List TransportMessage
  | [] => [m]
  | x :: xs => if m.nonce ≤ x.nonce then m :: x :: xs else x :: insertByNonce m xs

/-- Modelled from the spec (§4.C): a fresh queue is armed with next expected
nonce 0 and nothing buffered. -/
def MessageQueue.new : MessageQueue :=
  { connectionMessageReceived := false, nextExpected := 0, buffered := [] }

/-- Modelled from the spec (§4.C): `try_push` releases the message exactly
when the queue is active and the nonce is the next expected one (advancing
the counter); otherwise the message is buffered in nonce order. -/
def MessageQueue.try_push (q : MessageQueue) (msg : TransportMessage) :
    MessageQueue × Option TransportMessage :=
  if q.connectionMessageReceived ∧ msg.nonce = q.nextExpected then
    ({ q with nextExpected := q.nextExpected + 1 }, some msg)
  else
    ({ q with buffered := insertByNonce msg q.buffered }, none)

/-- Modelled from the spec (§4.C): `pop` releases the buffered minimum when
the queue is active and that minimum is the next expected nonce; an armed
queue releases nothing. -/
def MessageQueue.pop (q : MessageQueue) : MessageQueue × Option TransportMessage :=
  if q.connectionMessageReceived = false then (q, none)
  else
    match q.buffered with
    | [] => (q, none)
    | m :: rest =>
      if m.nonce = q.nextExpected then
        ({ q with buffered := rest, nextExpected := q.nextExpected + 1 }, some m)
      else (q, none)

/-- Modelled from the spec (§4.C): `activate`, called
`set_connection_message_received` at the call sites in `transport.rs`. -/
def MessageQueue.set_connection_message_received (q : MessageQueue) : MessageQueue :=
  { q with connectionMessageReceived := true }

/-- Fuelled rendering of the `while let Some(msg) = queue.pop()` loops of
`transport.rs`; the fuel is instantiated with the buffer length, which
bounds the number of successful pops. -/
def MessageQueue.drainFuel : Nat → MessageQueue → MessageQueue × List TransportMessage
  | 0, q => (q, [])
  | fuel + 1, q =>
    match q.pop with
    | (q', some m) =>
      let r := MessageQueue.drainFuel fuel q'
      (r.1, m :: r.2)
    | (_, none) => (q, [])

/-- Drain the queue by repeated `pop` until it returns nothing, collecting
the released messages in release order. -/
def MessageQueue.drain (q : MessageQueue) : MessageQueue × List TransportMessage :=
  MessageQueue.drainFuel q.buffered.length q

/-- Lookup in an association list keyed by connection id (the model of the
`HashMap`s of `transport.rs`). -/
def lookupA {β : Type} : List (Nat × β) → Nat → Option β
  | [], _ => none
  | (k, v) :: rest, key => if k = key then some v else lookupA rest key

/-- Insert (or overwrite) a binding; the model of `HashMap::insert`. -/
def insertA {β : Type} (l : List (Nat × β)) (key : Nat) (v : β) : List (Nat × β) :=
  (key, v) :: l

/-- Remove a binding; the model of `HashMap::remove`. -/
def removeA {β : Type} : List (Nat × β) → Nat → List (Nat × β)
  | [], _ => []
  | p :: rest, key => if p.1 = key then removeA rest key else p :: removeA rest key

/-- Membership test; the model of `HashMap::contains_key`. -/
def containsA {β : Type} (l : List (Nat × β)) (key : Nat) : Bool :=
  (lookupA l key).isSome

instance {ε α : Type} [DecidableEq ε] [DecidableEq α] : DecidableEq (Except ε α) :=
  fun x y =>
    match x, y with
    | Except.ok a, Except.ok b => decidable_of_iff (a = b) (by simp)
    | Except.error a, Except.error b => decidable_of_iff (a = b) (by simp)
    | Except.ok _, Except.error _ => isFalse (by simp)
    | Except.error _, Except.ok _ => isFalse (by simp)

/-- The Connection record created by `create_connection_types`
(`Connection::new_with_sender_tag`): remote peer id, optional remote
recipient (dialer side), connection id, optional reply tag (acceptor side).
The channel halves it holds are modelled at the transport. -/
structure Connection where
  peer_id : PeerId
  remote_recipient : Option Recipient
  id : ConnectionId
  sender_tag : Option AnonymousSenderTag
deriving DecidableEq, Repr

/-- `PendingConnection`: the stored half of an outbound dial, keeping the
remote recipient; the oneshot sender is modelled via `dial_resolved`. -/
structure PendingConnection where
  remote_recipient : Recipient
deriving DecidableEq, Repr

/-- The events of `TransportEvent` that `transport.rs` produces.  The
`Upgrade` of an `Incoming` event resolves immediately (the oneshot is sent
inside `handle_inbound` before the event is surfaced), so it is modelled by
the resolved `(PeerId, Connection)` pair. -/
inductive TransportEvent where
  | NewAddress (listener_id : Nat) (listen_addr : Multiaddr)
  | Incoming (listener_id : Nat) (upgrade : PeerId × Connection)
      (local_addr : Multiaddr) (send_back_addr : Multiaddr)
  | ListenerClosed (listener_id : Nat) (reason_ok : Bool)
  | ListenerError (listener_id : Nat) (error : Error)
deriving DecidableEq, Repr

/-- The state of `NymTransport`.  Channels are modelled by the lists of
values sent on them: `connections` maps a connection id to the messages
forwarded on its inbound demux channel (the Rust channel carries the inner
`SubstreamMessage`; the model keeps the whole `TransportMessage` so the
released nonces remain visible — the forwarded value is its `message`
projection, in the same order); `outbound` is the `outbound_tx` channel;
`poll_events` is the `poll_tx` channel; `dial_resolved` records oneshot
deliveries to dial futures. -/
structure NymTransport where
  self_address : Recipient
  listen_addr : Multiaddr
  listener_id : Nat
  keypair : Keypair
  connections : List (ConnectionId × List TransportMessage)
  pending_dials : List (ConnectionId × PendingConnection)
  message_queues : List (ConnectionId × MessageQueue)
  outbound : List OutboundMessage
  poll_events : List TransportEvent
  dial_resolved : List (ConnectionId × Connection)
  handshake_timeout : Nat
deriving DecidableEq, Repr

/-- `nym_address_to_multiaddress`: format the single-component address
`/nym/<recipient>` (the formatting of a genuine recipient string always
parses back, so the fallible `Multiaddr::from_str` is total here). -/
def nym_address_to_multiaddress (addr : Recipient) : Multiaddr :=
  [Protocol.nym addr]

/-- `multiaddress_to_nym_address`: pop the final component and require it to
be the `nym` component; `fromStr` is the external `Recipient::from_str`
parser (a parameter of the model), `none` there meaning a parse failure.
The outer `none` models the panic of `multiaddr.pop().unwrap()` on an empty
multiaddress. -/
def multiaddress_to_nym_address (fromStr : String → Option Recipient)
    (multiaddr : Multiaddr) : Option (Except Error Recipient) :=
  match multiaddr.getLast? with
  | none => none
  | some (Protocol.nym addr) =>
    match fromStr addr with
    | some r => some (Except.ok r)
    | none => some (Except.error Error.InvalidRecipientBytes)
  | some (Protocol.other _) => some (Except.error Error.InvalidProtocolForMultiaddr)

/-- The transport as built by `new_maybe_with_notify_inbound`: empty tables,
listen address derived from the own recipient, and the initial `NewAddress`
event already sent on the poll channel. -/
def mkTransport (self_address : Recipient) (keypair : Keypair)
    (listener_id : Nat) (handshake_timeout : Nat) : NymTransport :=
  { self_address := self_address
    listen_addr := nym_address_to_multiaddress self_address
    listener_id := listener_id
    keypair := keypair
    connections := []
    pending_dials := []
    message_queues := []
    outbound := []
    poll_events := [TransportEvent.NewAddress listener_id
      (nym_address_to_multiaddress self_address)]
    dial_resolved := []
    handshake_timeout := handshake_timeout }

/-- `NymTransport::peer_id`: the peer id derived from the transport's own
keypair. -/
def NymTransport.peer_id (t : NymTransport) : PeerId :=
  t.keypair.publicPeerId

/-- `create_connection_types`: build the Connection record and register a
fresh (empty) inbound demux channel for it. -/
def NymTransport.create_connection_types (_t : NymTransport)
    (remote_peer_id : PeerId) (remote_recipient : Option Recipient)
    (id : ConnectionId) (sender_tag : Option AnonymousSenderTag) : Connection :=
  { peer_id := remote_peer_id
    remote_recipient := remote_recipient
    id := id
    sender_tag := sender_tag }

/-- `handle_message_queue_on_connection_initiation`: requires an established
connection for `id`; activates the existing queue and forwards every
releasable buffered message in order, or installs a fresh activated queue if
none exists. -/
def NymTransport.handle_message_queue_on_connection_initiation
    (t : NymTransport) (id : ConnectionId) : NymTransport × Except Error Unit :=
  match lookupA t.connections id with
  | none => (t, Except.error Error.NoConnectionForTransportMessage)
  | some delivered =>
    match lookupA t.message_queues id with
    | some queue =>
      let q1 := queue.set_connection_message_received
      let r := q1.drain
      ({ t with
          message_queues := insertA t.message_queues id r.1
          connections := insertA t.connections id (delivered ++ r.2) },
        Except.ok ())
    | none =>
      ({ t with
          message_queues := insertA t.message_queues id
            MessageQueue.new.set_connection_message_received },
        Except.ok ())

/-- `handle_connection_response`: reject ids already established; otherwise
match a pending dial by connection id, build the dialer-side Connection with
the pending recipient and the inbound reply tag, establish it, activate and
drain its queue, and deliver the Connection to the dial future; otherwise
report `NoConnectionForResponse`. -/
def NymTransport.handle_connection_response (t : NymTransport)
    (msg : ConnectionMessage) (sender_tag : Option AnonymousSenderTag) :
    NymTransport × Except Error Unit :=
  if containsA t.connections msg.id then
    (t, Except.error Error.ConnectionAlreadyEstablished)
  else
    match lookupA t.pending_dials msg.id with
    | some pending_conn =>
      let t0 := { t with pending_dials := removeA t.pending_dials msg.id }
      let conn := t0.create_connection_types msg.peer_id
        (some pending_conn.remote_recipient) msg.id sender_tag
      let t1 := { t0 with connections := insertA t0.connections msg.id [] }
      let s := t1.handle_message_queue_on_connection_initiation msg.id
      match s.2 with
      | Except.error e => (s.1, Except.error e)
      | Except.ok _ =>
        ({ s.1 with dial_resolved := s.1.dial_resolved ++ [(msg.id, conn)] },
          Except.ok ())
    | none => (t, Except.error Error.NoConnectionForResponse)

/-- `handle_connection_request`: reject ids already established; otherwise
build the acceptor-side Connection (no remote recipient, inbound reply tag),
establish it, activate its queue, and send back
`ConnectionResponse { our peer id, same id }` addressed by the reply tag. -/
def NymTransport.handle_connection_request (t : NymTransport)
    (msg : ConnectionMessage) (sender_tag : Option AnonymousSenderTag) :
    NymTransport × Except Error Connection :=
  if containsA t.connections msg.id then
    (t, Except.error Error.ConnectionIDExists)
  else
    let conn := t.create_connection_types msg.peer_id none msg.id sender_tag
    let t1 := { t with connections := insertA t.connections msg.id [] }
    let s := t1.handle_message_queue_on_connection_initiation msg.id
    match s.2 with
    | Except.error e => (s.1, Except.error e)
    | Except.ok _ =>
      let resp : ConnectionMessage := { peer_id := s.1.peer_id, id := msg.id }
      ({ s.1 with outbound := s.1.outbound ++
          [{ message := Message.ConnectionResponse resp
             recipient := none
             sender_tag := sender_tag }] },
        Except.ok conn)

/-- `handle_transport_message`: route to the queue for the message's id,
creating a fresh (armed) queue if none exists; `try_push`; on release,
forward on the connection's inbound demux and keep draining the queue in
order; a buffered message just stays in the queue. -/
def NymTransport.handle_transport_message (t : NymTransport)
    (msg : TransportMessage) : NymTransport × Except Error Unit :=
  let queue := (lookupA t.message_queues msg.id).getD MessageQueue.new
  let p := queue.try_push msg
  match p.2 with
  | none =>
    ({ t with message_queues := insertA t.message_queues msg.id p.1 }, Except.ok ())
  | some m =>
    match lookupA t.connections msg.id with
    | none => (t, Except.error Error.NoConnectionForTransportMessage)
    | some delivered =>
      let r := p.1.drain
      ({ t with
          message_queues := insertA t.message_queues msg.id r.1
          connections := insertA t.connections msg.id (delivered ++ m :: r.2) },
        Except.ok ())

/-- The result classification of `handle_inbound`. -/
inductive InboundTransportEvent where
  | ConnectionRequest (upgrade : PeerId × Connection)
  | ConnectionResponse
  | TransportMessage
deriving DecidableEq, Repr

/-- `handle_inbound`: classify the envelope and dispatch; a connection
request additionally resolves the upgrade immediately with the claimed peer
id and the created Connection. -/
def NymTransport.handle_inbound (t : NymTransport) (msg : Message)
    (sender_tag : Option AnonymousSenderTag) :
    NymTransport × Except Error InboundTransportEvent :=
  match msg with
  | Message.ConnectionRequest inner =>
    let s := t.handle_connection_request inner sender_tag
    match s.2 with
    | Except.ok conn =>
      (s.1, Except.ok (InboundTransportEvent.ConnectionRequest (inner.peer_id, conn)))
    | Except.error e => (s.1, Except.error e)
  | Message.ConnectionResponse m =>
    let s := t.handle_connection_response m sender_tag
    (s.1, s.2.map fun _ => InboundTransportEvent.ConnectionResponse)
  | Message.TransportMessage m =>
    let s := t.handle_transport_message m
    (s.1, s.2.map fun _ => InboundTransportEvent.TransportMessage)

/-- One iteration of the inbound-message loop of `Transport::poll`: handle
the next inbound envelope; a successful connection request surfaces an
`Incoming` event (with both addresses the listen address), a handler error
surfaces a `ListenerError` event, anything else produces no event and the
loop continues. -/
def NymTransport.pollInboundStep (t : NymTransport) (msg : Message)
    (sender_tag : Option AnonymousSenderTag) :
    NymTransport × Option TransportEvent :=
  let s := t.handle_inbound msg sender_tag
  match s.2 with
  | Except.ok (InboundTransportEvent.ConnectionRequest upgrade) =>
    (s.1, some (TransportEvent.Incoming s.1.listener_id upgrade
      s.1.listen_addr s.1.listen_addr))
  | Except.ok InboundTransportEvent.ConnectionResponse => (s.1, none)
  | Except.ok InboundTransportEvent.TransportMessage => (s.1, none)
  | Except.error e => (s.1, some (TransportEvent.ListenerError s.1.listener_id e))

/-- `Transport::listen_on`: a no-op that succeeds. -/
def NymTransport.listen_on (t : NymTransport) (_listener_id : Nat)
    (_multi_addr : Multiaddr) : NymTransport × Except Error Unit :=
  (t, Except.ok ())

/-- `Transport::remove_listener`: succeeds only for the owned listener id,
emitting `ListenerClosed` with an `Ok` reason on the poll channel. -/
def NymTransport.remove_listener (t : NymTransport) (id : Nat) :
    NymTransport × Bool :=
  if t.listener_id ≠ id then (t, false)
  else
    ({ t with poll_events := t.poll_events ++ [TransportEvent.ListenerClosed id true] },
      true)

/-- The data of the future returned by `dial`: the minted connection id and
the captured handshake timeout wrapped around the oneshot receiver. -/
structure DialFuture where
  connection_id : ConnectionId
  timeout : Nat
deriving DecidableEq, Repr

/-- `Transport::dial`, together with the first action of the returned future
(sending the `ConnectionRequest`, which the Rust future performs when first
polled): convert the address (panicking on an empty one, modelled by `none`),
mint `freshId` as the new connection id, store the PendingConnection, derive
the request peer id from the freshly generated keypair `freshKeypair`, and
emit the request addressed to the remote recipient with no reply tag. -/
def NymTransport.dial (fromStr : String → Option Recipient) (t : NymTransport)
    (addr : Multiaddr) (freshId : ConnectionId) (freshKeypair : Keypair) :
    Option (NymTransport × Except Error DialFuture) :=
  match multiaddress_to_nym_address fromStr addr with
  | none => none
  | some (Except.error e) => some (t, Except.error e)
  | some (Except.ok recipient) =>
    let inner_pending_conn : PendingConnection := { remote_recipient := recipient }
    let t1 := { t with pending_dials := insertA t.pending_dials freshId inner_pending_conn }
    let connection_peer_id := freshKeypair.publicPeerId
    let msg : ConnectionMessage := { peer_id := connection_peer_id, id := freshId }
    let t2 := { t1 with outbound := t1.outbound ++
        [{ message := Message.ConnectionRequest msg
           recipient := some recipient
           sender_tag := none }] }
    some (t2, Except.ok { connection_id := freshId, timeout := t.handshake_timeout })

/-- Process a list of inbound `(envelope, reply tag)` pairs in arrival
order, as the loop in `Transport::poll` does. -/
def processInbound (t : NymTransport) :
    List (Message × Option AnonymousSenderTag) → NymTransport
  | [] => t
  | ev :: rest => processInbound (t.handle_inbound ev.1 ev.2).1 rest

/-- The transport-message frames for connection `c` contained in an inbound
trace, in arrival order. -/
def tmsgsFor (evs : List (Message × Option AnonymousSenderTag))
    (c : ConnectionId) : List TransportMessage :=
  evs.filterMap fun ev =>
    match ev.1 with
    | Message.TransportMessage tm => if tm.id = c then some tm else none
    | _ => none

/-- The messages forwarded so far on connection `c`'s inbound demux channel. -/
def deliveredFor (t : NymTransport) (c : ConnectionId) : List TransportMessage :=
  (lookupA t.connections c).getD []

/-- The messages still buffered in connection `c`'s reorder queue. -/
def bufferedFor (t : NymTransport) (c : ConnectionId) : List TransportMessage :=
  match lookupA t.message_queues c with
  | some q => q.buffered
  | none => []

/-- The nonces of a list of transport messages, in order. -/
def noncesOf (l : List TransportMessage) : List Nat :=
  l.map fun m => m.nonce

theorem lookupA_insert_self {β : Type} (l : List (Nat × β)) (k : Nat) (v : β) :
    lookupA (insertA l k v) k = some v := by
  simp [insertA, lookupA]

theorem lookupA_insert_ne {β : Type} (l : List (Nat × β)) (k k' : Nat) (v : β)
    (h : k ≠ k') : lookupA (insertA l k v) k' = lookupA l k' := by
  simp [insertA, lookupA, h]

theorem lookupA_remove_self {β : Type} (l : List (Nat × β)) (k : Nat) :
    lookupA (removeA l k) k = none := by
  induction l with
  | nil => rfl
  | cons p rest ih =>
    by_cases h : p.1 = k
    · simp [removeA, h, ih]
    · simp [removeA, h, lookupA, ih]

theorem lookupA_remove_ne {β : Type} (l : List (Nat × β)) (k k' : Nat)
    (h : k ≠ k') : lookupA (removeA l k) k' = lookupA l k' := by
  induction l with
  | nil => rfl
  | cons p rest ih =>
    by_cases hp : p.1 = k
    · have hpk : p.1 ≠ k' := by rw [hp]; exact h
      simp [removeA, hp, lookupA, hpk, ih, h]
    · simp [removeA, hp, lookupA, ih]

theorem containsA_false {β : Type} {l : List (Nat × β)} {k : Nat}
    (h : containsA l k = false) : lookupA l k = none := by
  cases hl : lookupA l k with
  | none => rfl
  | some v => rw [containsA, hl] at h; simp at h

theorem containsA_true {β : Type} {l : List (Nat × β)} {k : Nat}
    (h : containsA l k = true) : ∃ v, lookupA l k = some v := by
  cases hl : lookupA l k with
  | none => rw [containsA, hl] at h; simp at h
  | some v => exact ⟨v, rfl⟩

theorem pop_cmr (q : MessageQueue) :
    q.pop.1.connectionMessageReceived = q.connectionMessageReceived := by
  rw [MessageQueue.pop]
  split
  · rfl
  · split
    · rfl
    · split <;> rfl

theorem drainFuel_cmr : ∀ (fuel : Nat) (q : MessageQueue),
    (MessageQueue.drainFuel fuel q).1.connectionMessageReceived
      = q.connectionMessageReceived := by
  intro fuel
  induction fuel with
  | zero => intro q; rfl
  | succ n ih =>
    intro q
    have hp := pop_cmr q
    rcases hq : q.pop with ⟨q', om⟩
    rw [hq] at hp
    cases om with
    | some m => simp only [MessageQueue.drainFuel, hq]; rw [ih q']; exact hp
    | none => simp only [MessageQueue.drainFuel, hq]

theorem drain_cmr (q : MessageQueue) :
    q.drain.1.connectionMessageReceived = q.connectionMessageReceived :=
  drainFuel_cmr q.buffered.length q

theorem handle_connection_request_known (t : NymTransport) (cm : ConnectionMessage)
    (tag : Option AnonymousSenderTag) (h : containsA t.connections cm.id = true) :
    t.handle_connection_request cm tag = (t, Except.error Error.ConnectionIDExists) := by
  simp [NymTransport.handle_connection_request, h]

theorem handle_connection_request_new (t : NymTransport) (cm : ConnectionMessage)
    (tag : Option AnonymousSenderTag) (h : containsA t.connections cm.id = false) :
    ∃ t', t.handle_connection_request cm tag =
        (t', Except.ok { peer_id := cm.peer_id, remote_recipient := none,
                         id := cm.id, sender_tag := tag })
      ∧ t'.outbound = t.outbound ++
          [{ message := Message.ConnectionResponse { peer_id := t.peer_id, id := cm.id }
             recipient := none
             sender_tag := tag }]
      ∧ containsA t'.connections cm.id = true
      ∧ (∃ q, lookupA t'.message_queues cm.id = some q
          ∧ q.connectionMessageReceived = true)
      ∧ (lookupA t.message_queues cm.id = none →
          lookupA t'.message_queues cm.id =
            some MessageQueue.new.set_connection_message_received
          ∧ lookupA t'.connections cm.id = some [])
      ∧ (∀ q, lookupA t.message_queues cm.id = some q →
          lookupA t'.message_queues cm.id = some q.set_connection_message_received.drain.1
          ∧ lookupA t'.connections cm.id = some q.set_connection_message_received.drain.2)
      ∧ t'.listener_id = t.listener_id ∧ t'.listen_addr = t.listen_addr
      ∧ t'.pending_dials = t.pending_dials ∧ t'.dial_resolved = t.dial_resolved := by
  have h' := containsA_false h
  cases hq : lookupA t.message_queues cm.id with
  | none =>
    refine ⟨{ t with
        connections := insertA t.connections cm.id []
        message_queues := insertA t.message_queues cm.id
          MessageQueue.new.set_connection_message_received
        outbound := t.outbound ++
          [{ message := Message.ConnectionResponse { peer_id := t.peer_id, id := cm.id }
             recipient := none
             sender_tag := tag }] }, ?_, ?_, ?_, ?_, ?_, ?_, ?_, ?_, ?_, ?_⟩ <;>
      simp [NymTransport.handle_connection_request, h,
        NymTransport.handle_message_queue_on_connection_initiation,
        lookupA_insert_self, hq, NymTransport.create_connection_types,
        NymTransport.peer_id, containsA, h', drain_cmr,
        MessageQueue.set_connection_message_received]
  | some q =>
    refine ⟨{ t with
        connections := insertA (insertA t.connections cm.id []) cm.id
          q.set_connection_message_received.drain.2
        message_queues := insertA t.message_queues cm.id
          q.set_connection_message_received.drain.1
        outbound := t.outbound ++
          [{ message := Message.ConnectionResponse { peer_id := t.peer_id, id := cm.id }
             recipient := none
             sender_tag := tag }] }, ?_, ?_, ?_, ?_, ?_, ?_, ?_, ?_, ?_, ?_⟩ <;>
      simp [NymTransport.handle_connection_request, h,
        NymTransport.handle_message_queue_on_connection_initiation,
        lookupA_insert_self, hq, NymTransport.create_connection_types,
        NymTransport.peer_id, containsA, h', drain_cmr,
        MessageQueue.set_connection_message_received]

theorem handle_connection_response_known (t : NymTransport) (cm : ConnectionMessage)
    (tag : Option AnonymousSenderTag) (h : containsA t.connections cm.id = true) :
    t.handle_connection_response cm tag = (t, Except.error Error.ConnectionAlreadyEstablished) := by
  simp [NymTransport.handle_connection_response, h]

theorem handle_connection_response_no_pending (t : NymTransport) (cm : ConnectionMessage)
    (tag : Option AnonymousSenderTag) (h : containsA t.connections cm.id = false)
    (hp : lookupA t.pending_dials cm.id = none) :
    t.handle_connection_response cm tag = (t, Except.error Error.NoConnectionForResponse) := by
  simp [NymTransport.handle_connection_response, h, hp]

theorem handle_connection_response_pending (t : NymTransport) (cm : ConnectionMessage)
    (tag : Option AnonymousSenderTag) (pending : PendingConnection)
    (h : containsA t.connections cm.id = false)
    (hp : lookupA t.pending_dials cm.id = some pending) :
    ∃ t', t.handle_connection_response cm tag = (t', Except.ok ())
      ∧ t'.dial_resolved = t.dial_resolved ++
          [(cm.id, { peer_id := cm.peer_id
                     remote_recipient := some pending.remote_recipient
                     id := cm.id
                     sender_tag := tag })]
      ∧ lookupA t'.pending_dials cm.id = none
      ∧ containsA t'.connections cm.id = true
      ∧ (∃ q, lookupA t'.message_queues cm.id = some q
          ∧ q.connectionMessageReceived = true)
      ∧ (lookupA t.message_queues cm.id = none →
          lookupA t'.message_queues cm.id =
            some MessageQueue.new.set_connection_message_received
          ∧ lookupA t'.connections cm.id = some [])
      ∧ (∀ q, lookupA t.message_queues cm.id = some q →
          lookupA t'.message_queues cm.id = some q.set_connection_message_received.drain.1
          ∧ lookupA t'.connections cm.id = some q.set_connection_message_received.drain.2)
      ∧ t'.outbound = t.outbound ∧ t'.poll_events = t.poll_events := by
  have h' := containsA_false h
  cases hq : lookupA t.message_queues cm.id with
  | none =>
    refine ⟨{ t with
        pending_dials := removeA t.pending_dials cm.id
        connections := insertA t.connections cm.id []
        message_queues := insertA t.message_queues cm.id
          MessageQueue.new.set_connection_message_received
        dial_resolved := t.dial_resolved ++
          [(cm.id, { peer_id := cm.peer_id
                     remote_recipient := some pending.remote_recipient
                     id := cm.id
                     sender_tag := tag })] }, ?_, ?_, ?_, ?_, ?_, ?_, ?_, ?_, ?_⟩ <;>
      simp [NymTransport.handle_connection_response, h, hp,
        NymTransport.handle_message_queue_on_connection_initiation,
        lookupA_insert_self, lookupA_remove_self, hq, h',
        NymTransport.create_connection_types, containsA,
        MessageQueue.set_connection_message_received]
  | some q =>
    refine ⟨{ t with
        pending_dials := removeA t.pending_dials cm.id
        connections := insertA (insertA t.connections cm.id []) cm.id
          q.set_connection_message_received.drain.2
        message_queues := insertA t.message_queues cm.id
          q.set_connection_message_received.drain.1
        dial_resolved := t.dial_resolved ++
          [(cm.id, { peer_id := cm.peer_id
                     remote_recipient := some pending.remote_recipient
                     id := cm.id
                     sender_tag := tag })] }, ?_, ?_, ?_, ?_, ?_, ?_, ?_, ?_, ?_⟩ <;>
      simp [NymTransport.handle_connection_response, h, hp,
        NymTransport.handle_message_queue_on_connection_initiation,
        lookupA_insert_self, lookupA_remove_self, hq, drain_cmr, h',
        NymTransport.create_connection_types, containsA,
        MessageQueue.set_connection_message_received]

/-- C7: address handling is asymmetric.  Decoding accepts any non-empty
multiaddress whose final component is the `nym` component with a recipient
the external parser accepts, ignoring all earlier components; a non-empty
multiaddress ending in any other component is rejected; and the address the
transport emits (its listen address) is the single-component `/nym/<self>`
form. -/
theorem claim7_address_asymmetry (fromStr : String → Option Recipient)
    (pre m : Multiaddr) (s : String) (r : Recipient) (tagn : Nat)
    (sa : Recipient) (kp : Keypair) (lid tmo : Nat) :
    (fromStr s = some r →
      multiaddress_to_nym_address fromStr (pre ++ [Protocol.nym s])
        = some (Except.ok r))
    ∧ multiaddress_to_nym_address fromStr (m ++ [Protocol.other tagn])
        = some (Except.error Error.InvalidProtocolForMultiaddr)
    ∧ (mkTransport sa kp lid tmo).listen_addr = [Protocol.nym sa] := by
  refine ⟨fun hs => ?_, ?_, ?_⟩
  · simp [multiaddress_to_nym_address, hs]
  · simp [multiaddress_to_nym_address]
  · rfl

/-- C7 witness at a concrete parser, address and transport. -/
theorem claim7_address_asymmetry_witness :
    (fun (x : String) => some x) "r" = some "r"
    ∧ multiaddress_to_nym_address (fun x => some x)
        ([Protocol.other 4] ++ [Protocol.nym "r"]) = some (Except.ok "r") := by
  refine ⟨rfl, ?_⟩
  exact (claim7_address_asymmetry (fun x => some x) [Protocol.other 4] [] "r" "r" 0 "s" 1 2 3).1 rfl

/-- C8: `listen_on` is a no-op that succeeds for any listener id and address;
`remove_listener` returns true and emits `ListenerClosed` with an `Ok`
reason exactly for the transport's own listener id, and returns false with
no event for any other id. -/
theorem claim8_listeners (t : NymTransport) (lid : Nat) (addr : Multiaddr) (id : Nat) :
    t.listen_on lid addr = (t, Except.ok ())
    ∧ ((t.remove_listener id).2 = true ↔ id = t.listener_id)
    ∧ (id = t.listener_id →
        t.remove_listener id =
          ({ t with poll_events := t.poll_events ++ [TransportEvent.ListenerClosed id true] },
            true))
    ∧ (id ≠ t.listener_id → t.remove_listener id = (t, false)) := by
  refine ⟨rfl, ?_, fun he => ?_, fun hne => ?_⟩
  · constructor
    · intro h
      by_contra hne
      have : t.listener_id ≠ id := fun hh => hne hh.symm
      simp [NymTransport.remove_listener, this] at h
    · intro he
      simp [NymTransport.remove_listener, he]
  · simp [NymTransport.remove_listener, he]
  · have : t.listener_id ≠ id := fun hh => hne hh.symm
    simp [NymTransport.remove_listener, this]

/-- C8 witness: at a concrete transport, removing the owned listener id
succeeds with the event, removing another id returns false without a trace. -/
theorem claim8_listeners_witness :
    ((mkTransport "self" 7 5 60).remove_listener 5).2 = true
    ∧ (mkTransport "self" 7 5 60).remove_listener 6 = (mkTransport "self" 7 5 60, false) := by
  constructor
  · exact (claim8_listeners (mkTransport "self" 7 5 60) 0 [] 5).2.1.mpr rfl
  · exact (claim8_listeners (mkTransport "self" 7 5 60) 0 [] 6).2.2.2 (by decide)

/-- C9: the address conversion unconditionally unwraps the popped final
component, so an empty multiaddress makes `dial` panic (modelled by `none`)
instead of returning a malformed-address error. -/
theorem claim9_empty_multiaddr_panics (fromStr : String → Option Recipient)
    (t : NymTransport) (freshId : ConnectionId) (freshKeypair : Keypair) :
    multiaddress_to_nym_address fromStr [] = none
    ∧ t.dial fromStr [] freshId freshKeypair = none := by
  exact ⟨rfl, rfl⟩

/-- C2: an inbound ConnectionRequest whose id is already established makes
the poll loop surface `ConnectionIDExists` as a `ListenerError` event with
the transport state untouched; otherwise the acceptor Connection (no remote
recipient, inbound reply tag) is created and established, its queue is
activated (a fresh one created if none existed), a ConnectionResponse with
the transport's own peer id and the same connection id is emitted via the
reply tag, and an `Incoming` event carrying the immediately resolved
upgrade `(remote peer id, Connection)` is surfaced. -/
theorem claim2_connection_request (t : NymTransport) (cm : ConnectionMessage)
    (tag : Option AnonymousSenderTag) :
    (containsA t.connections cm.id = true →
      t.pollInboundStep (Message.ConnectionRequest cm) tag
        = (t, some (TransportEvent.ListenerError t.listener_id Error.ConnectionIDExists)))
    ∧ (containsA t.connections cm.id = false →
      ∃ t', t.pollInboundStep (Message.ConnectionRequest cm) tag
          = (t', some (TransportEvent.Incoming t.listener_id
              (cm.peer_id, { peer_id := cm.peer_id, remote_recipient := none,
                             id := cm.id, sender_tag := tag })
              t.listen_addr t.listen_addr))
        ∧ containsA t'.connections cm.id = true
        ∧ (∃ q, lookupA t'.message_queues cm.id = some q
            ∧ q.connectionMessageReceived = true)
        ∧ (lookupA t.message_queues cm.id = none →
            lookupA t'.message_queues cm.id =
              some MessageQueue.new.set_connection_message_received)
        ∧ t'.outbound = t.outbound ++
            [{ message := Message.ConnectionResponse { peer_id := t.peer_id, id := cm.id }
               recipient := none
               sender_tag := tag }]) := by
  constructor
  · intro h
    simp [NymTransport.pollInboundStep, NymTransport.handle_inbound,
      handle_connection_request_known t cm tag h]
  · intro h
    obtain ⟨t', heq, hout, hconn, hq, hqnone, _hqsome, hlid, hladdr, _hpend, _hdial⟩ :=
      handle_connection_request_new t cm tag h
    refine ⟨t', ?_, hconn, hq, fun hn => (hqnone hn).1, hout⟩
    simp [NymTransport.pollInboundStep, NymTransport.handle_inbound, heq, hlid, hladdr]

/-- C2 witness: a request for an unknown id on a fresh transport yields the
Incoming event with the resolved upgrade. -/
theorem claim2_connection_request_witness :
    containsA (mkTransport "self" 7 1 60).connections 0 = false
    ∧ (∃ t', (mkTransport "self" 7 1 60).pollInboundStep
          (Message.ConnectionRequest { peer_id := 9, id := 0 }) (some 3)
          = (t', some (TransportEvent.Incoming 1
              (9, { peer_id := 9, remote_recipient := none, id := 0, sender_tag := some 3 })
              [Protocol.nym "self"] [Protocol.nym "self"]))
        ∧ containsA t'.connections 0 = true
        ∧ (∃ q, lookupA t'.message_queues 0 = some q
            ∧ q.connectionMessageReceived = true)
        ∧ (lookupA (mkTransport "self" 7 1 60).message_queues 0 = none →
            lookupA t'.message_queues 0 =
              some MessageQueue.new.set_connection_message_received)
        ∧ t'.outbound = (mkTransport "self" 7 1 60).outbound ++
            [{ message := Message.ConnectionResponse { peer_id := 7, id := 0 }
               recipient := none
               sender_tag := some 3 }]) :=
  ⟨by decide, (claim2_connection_request (mkTransport "self" 7 1 60)
    { peer_id := 9, id := 0 } (some 3)).2 (by decide)⟩

/-- C3: processing an inbound ConnectionResponse yields exactly one of three
outcomes, tested in order: an established id gives `ConnectionAlreadyEstablished`;
otherwise a pending dial with that id is resolved — the dialer-side
Connection (pending recipient, inbound reply tag) is created, the queue is
activated and drained, the Connection is delivered to the dial future and
the pending entry removed; otherwise `NoConnectionForResponse`.  The match
is by connection id only: the result component is independent of the
apparent sender tag. -/
theorem claim3_connection_response (t : NymTransport) (cm : ConnectionMessage)
    (tag tag' : Option AnonymousSenderTag) :
    (containsA t.connections cm.id = true →
      t.handle_connection_response cm tag
        = (t, Except.error Error.ConnectionAlreadyEstablished))
    ∧ (containsA t.connections cm.id = false →
        ∀ pending, lookupA t.pending_dials cm.id = some pending →
        ∃ t', t.handle_connection_response cm tag = (t', Except.ok ())
          ∧ t'.dial_resolved = t.dial_resolved ++
              [(cm.id, { peer_id := cm.peer_id
                         remote_recipient := some pending.remote_recipient
                         id := cm.id
                         sender_tag := tag })]
          ∧ lookupA t'.pending_dials cm.id = none
          ∧ containsA t'.connections cm.id = true
          ∧ (∃ q, lookupA t'.message_queues cm.id = some q
              ∧ q.connectionMessageReceived = true)
          ∧ (∀ q, lookupA t.message_queues cm.id = some q →
              lookupA t'.message_queues cm.id
                  = some q.set_connection_message_received.drain.1
              ∧ lookupA t'.connections cm.id
                  = some q.set_connection_message_received.drain.2))
    ∧ (containsA t.connections cm.id = false →
        lookupA t.pending_dials cm.id = none →
        t.handle_connection_response cm tag
          = (t, Except.error Error.NoConnectionForResponse))
    ∧ (t.handle_connection_response cm tag).2
        = (t.handle_connection_response cm tag').2 := by
  refine ⟨fun h => handle_connection_response_known t cm tag h,
    fun h pending hp => ?_, fun h hp => handle_connection_response_no_pending t cm tag h hp, ?_⟩
  · obtain ⟨t', heq, hd, hpd, hc, hq, _hqn, hqs, _ho, _he⟩ :=
      handle_connection_response_pending t cm tag pending h hp
    exact ⟨t', heq, hd, hpd, hc, hq, hqs⟩
  · by_cases hc : containsA t.connections cm.id = true
    · rw [handle_connection_response_known t cm tag hc,
        handle_connection_response_known t cm tag' hc]
    · have hc' : containsA t.connections cm.id = false := by
        simpa using hc
      cases hpd : lookupA t.pending_dials cm.id with
      | none =>
        rw [handle_connection_response_no_pending t cm tag hc' hpd,
          handle_connection_response_no_pending t cm tag' hc' hpd]
      | some p =>
        obtain ⟨ta, heqa, _⟩ := handle_connection_response_pending t cm tag p hc' hpd
        obtain ⟨tb, heqb, _⟩ := handle_connection_response_pending t cm tag' p hc' hpd
        rw [heqa, heqb]

/-- C3 witness: a response matching a stored pending dial resolves it. -/
theorem claim3_connection_response_witness :
    containsA { mkTransport "self" 7 1 60 with
        pending_dials := [(0, { remote_recipient := "rem" })] }.connections 0 = false
    ∧ lookupA { mkTransport "self" 7 1 60 with
        pending_dials := [(0, { remote_recipient := "rem" })] }.pending_dials 0
        = some { remote_recipient := "rem" }
    ∧ (∃ t', ({ mkTransport "self" 7 1 60 with
          pending_dials := [(0, { remote_recipient := "rem" })] } :
            NymTransport).handle_connection_response
          { peer_id := 9, id := 0 } (some 4) = (t', Except.ok ())
        ∧ t'.dial_resolved = ({ mkTransport "self" 7 1 60 with
            pending_dials := [(0, { remote_recipient := "rem" })] } :
              NymTransport).dial_resolved ++
            [(0, { peer_id := 9, remote_recipient := some "rem",
                   id := 0, sender_tag := some 4 })]
        ∧ lookupA t'.pending_dials 0 = none
        ∧ containsA t'.connections 0 = true
        ∧ (∃ q, lookupA t'.message_queues 0 = some q
            ∧ q.connectionMessageReceived = true)
        ∧ (∀ q, lookupA ({ mkTransport "self" 7 1 60 with
              pending_dials := [(0, { remote_recipient := "rem" })] } :
                NymTransport).message_queues 0 = some q →
            lookupA t'.message_queues 0
                = some q.set_connection_message_received.drain.1
            ∧ lookupA t'.connections 0
                = some q.set_connection_message_received.drain.2)) :=
  ⟨by decide, by decide,
    (claim3_connection_response { mkTransport "self" 7 1 60 with
        pending_dials := [(0, { remote_recipient := "rem" })] }
      { peer_id := 9, id := 0 } (some 4) (some 4)).2.1 (by decide)
      { remote_recipient := "rem" } (by decide)⟩

/-- C5 counterexample: an inbound ConnectionRequest carrying no sender tag
is accepted, and the ConnectionResponse envelope it emits has
`recipient = none` and `sender_tag = none` — an outbound envelope carrying
neither addressing mode, contradicting the claim that no outbound envelope
carries both modes or neither. -/
theorem claim5_counterexample :
    ((mkTransport "self" 7 1 60).handle_connection_request
        { peer_id := 9, id := 0 } none).2
      = Except.ok { peer_id := 9, remote_recipient := none, id := 0, sender_tag := none }
    ∧ ((mkTransport "self" 7 1 60).handle_connection_request
        { peer_id := 9, id := 0 } none).1.outbound
      = [{ message := Message.ConnectionResponse { peer_id := 7, id := 0 }
           recipient := none
           sender_tag := none }] := by
  constructor
  · rfl
  · rfl

/-- C5 amended: the dialer side always sends with a Recipient and no reply
tag; the acceptor side sends with no Recipient and exactly the inbound
sender tag — so its reply carries exactly the reply-tag mode whenever the
inbound request carried a tag, and carries neither mode when it did not. -/
theorem claim5_addressing_modes (fromStr : String → Option Recipient)
    (t : NymTransport) (addr : Multiaddr) (freshId : ConnectionId)
    (freshKp : Keypair) (cm : ConnectionMessage) (stag : AnonymousSenderTag) :
    (∀ t' fut, t.dial fromStr addr freshId freshKp = some (t', Except.ok fut) →
      ∃ env, t'.outbound = t.outbound ++ [env]
        ∧ env.recipient.isSome = true ∧ env.sender_tag = none)
    ∧ (∀ t' conn, t.handle_connection_request cm (some stag) = (t', Except.ok conn) →
      ∃ env, t'.outbound = t.outbound ++ [env]
        ∧ env.recipient = none ∧ env.sender_tag = some stag) := by
  constructor
  · intro t' fut hdial
    cases haddr : multiaddress_to_nym_address fromStr addr with
    | none => rw [NymTransport.dial, haddr] at hdial; exact absurd hdial (by simp)
    | some res =>
      cases res with
      | error e =>
        rw [NymTransport.dial, haddr] at hdial
        simp at hdial
      | ok r =>
        rw [NymTransport.dial, haddr] at hdial
        simp only [Option.some.injEq, Prod.mk.injEq] at hdial
        refine ⟨⟨Message.ConnectionRequest ⟨freshKp.publicPeerId, freshId⟩, some r, none⟩,
          ?_, rfl, rfl⟩
        rw [← hdial.1]
  · intro t' conn hreq
    cases hc : containsA t.connections cm.id with
    | true =>
      rw [handle_connection_request_known t cm (some stag) hc] at hreq
      simp at hreq
    | false =>
      obtain ⟨t'', heq, hout, _⟩ := handle_connection_request_new t cm (some stag) hc
      rw [heq] at hreq
      have ht : t' = t'' := by
        have := hreq
        simp only [Prod.mk.injEq] at this
        exact this.1.symm
      subst ht
      exact ⟨_, hout, rfl, rfl⟩

/-- The transport state after a concrete successful dial on a fresh
transport: pending entry stored, ConnectionRequest emitted. -/
def dialedT : NymTransport :=
  { mkTransport "self" 7 1 60 with
    pending_dials := [(0, { remote_recipient := "rem" })]
    outbound := [{ message := Message.ConnectionRequest { peer_id := 42, id := 0 }
                   recipient := some "rem"
                   sender_tag := none }] }

/-- A fresh transport holding one concrete pending dial. -/
def pendingT : NymTransport :=
  { mkTransport "self" 7 1 60 with
    pending_dials := [(0, { remote_recipient := "rem" })] }

/-- C5 amended witness: a concrete dial emits a Recipient-only envelope, and
a concrete tagged request emits a reply-tag-only envelope. -/
theorem claim5_addressing_modes_witness :
    (∃ env, dialedT.outbound = (mkTransport "self" 7 1 60).outbound ++ [env]
      ∧ env.recipient.isSome = true ∧ env.sender_tag = none)
    ∧ (∃ env, ((mkTransport "self" 7 1 60).handle_connection_request
          { peer_id := 9, id := 0 } (some 3)).1.outbound
        = (mkTransport "self" 7 1 60).outbound ++ [env]
      ∧ env.recipient = none ∧ env.sender_tag = some 3) := by
  constructor
  · exact (claim5_addressing_modes (fun x => some x) (mkTransport "self" 7 1 60)
      [Protocol.nym "rem"] 0 42 { peer_id := 9, id := 0 } 3).1 dialedT
      { connection_id := 0, timeout := 60 } (by decide)
  · exact (claim5_addressing_modes (fun x => some x) (mkTransport "self" 7 1 60)
      [Protocol.nym "rem"] 0 42 { peer_id := 9, id := 0 } 3).2
      ((mkTransport "self" 7 1 60).handle_connection_request
        { peer_id := 9, id := 0 } (some 3)).1
      { peer_id := 9, remote_recipient := none, id := 0, sender_tag := some 3 }
      (by decide)

/-- C6: dial fails with an address error when the final component is not the
nym component or its recipient does not parse; on success it stores a
PendingDial under the minted connection id, emits
`ConnectionRequest{fresh peer id, connection id}` addressed to the decoded
Recipient, and returns a future carrying the transport's handshake timeout;
a later matching ConnectionResponse delivers the Connection to that future. -/
theorem claim6_dial (fromStr : String → Option Recipient) (t : NymTransport)
    (pre m : Multiaddr) (s : String) (r : Recipient) (tagn : Nat)
    (freshId : ConnectionId) (freshKp : Keypair) :
    t.dial fromStr (m ++ [Protocol.other tagn]) freshId freshKp
        = some (t, Except.error Error.InvalidProtocolForMultiaddr)
    ∧ (fromStr s = none →
        t.dial fromStr (pre ++ [Protocol.nym s]) freshId freshKp
          = some (t, Except.error Error.InvalidRecipientBytes))
    ∧ (fromStr s = some r →
        t.dial fromStr (pre ++ [Protocol.nym s]) freshId freshKp
          = some ({ t with
              pending_dials := insertA t.pending_dials freshId { remote_recipient := r }
              outbound := t.outbound ++
                [{ message := Message.ConnectionRequest
                    { peer_id := freshKp.publicPeerId, id := freshId }
                   recipient := some r
                   sender_tag := none }] },
            Except.ok { connection_id := freshId, timeout := t.handshake_timeout }))
    ∧ (∀ (t2 : NymTransport) (respPeer : PeerId) (rtag : Option AnonymousSenderTag)
          (pending : PendingConnection),
        containsA t2.connections freshId = false →
        lookupA t2.pending_dials freshId = some pending →
        ∃ t3, t2.handle_connection_response { peer_id := respPeer, id := freshId } rtag
            = (t3, Except.ok ())
          ∧ t3.dial_resolved = t2.dial_resolved ++
              [(freshId, { peer_id := respPeer
                           remote_recipient := some pending.remote_recipient
                           id := freshId
                           sender_tag := rtag })]) := by
  refine ⟨?_, fun hn => ?_, fun hs => ?_, fun t2 respPeer rtag pending hc hp => ?_⟩
  · simp [NymTransport.dial, multiaddress_to_nym_address]
  · simp [NymTransport.dial, multiaddress_to_nym_address, hn]
  · simp [NymTransport.dial, multiaddress_to_nym_address, hs]
  · obtain ⟨t3, heq, hd, _⟩ :=
      handle_connection_response_pending t2 { peer_id := respPeer, id := freshId }
        rtag pending hc hp
    exact ⟨t3, heq, hd⟩

/-- C6 witness at concrete inputs: an unparsable recipient fails, a parsable
dial succeeds with the stored pending entry and emitted request, and a
matching response resolves the pending dial. -/
theorem claim6_dial_witness :
    (fun x => if x = "bad" then none else some x) "bad" = none
    ∧ (mkTransport "self" 7 1 60).dial (fun x => if x = "bad" then none else some x)
        ([Protocol.other 4] ++ [Protocol.nym "bad"]) 0 42
        = some (mkTransport "self" 7 1 60, Except.error Error.InvalidRecipientBytes)
    ∧ (mkTransport "self" 7 1 60).dial (fun x => if x = "bad" then none else some x)
        ([Protocol.other 4] ++ [Protocol.nym "rem"]) 0 42
        = some ({ mkTransport "self" 7 1 60 with
            pending_dials := insertA (mkTransport "self" 7 1 60).pending_dials 0
              { remote_recipient := "rem" }
            outbound := (mkTransport "self" 7 1 60).outbound ++
              [{ message := Message.ConnectionRequest { peer_id := 42, id := 0 }
                 recipient := some "rem"
                 sender_tag := none }] },
          Except.ok { connection_id := 0, timeout := 60 })
    ∧ (∃ t3, pendingT.handle_connection_response { peer_id := 9, id := 0 } none
          = (t3, Except.ok ())
        ∧ t3.dial_resolved = pendingT.dial_resolved ++
            [(0, { peer_id := 9, remote_recipient := some "rem",
                   id := 0, sender_tag := none })]) := by
  have h6 := claim6_dial (fun x => if x = "bad" then none else some x)
    (mkTransport "self" 7 1 60) [Protocol.other 4] [Protocol.other 4] "bad" "rem" 4 0 42
  have h6' := claim6_dial (fun x => if x = "bad" then none else some x)
    (mkTransport "self" 7 1 60) [Protocol.other 4] [Protocol.other 4] "rem" "rem" 4 0 42
  refine ⟨rfl, h6.2.1 (by decide), h6'.2.2.1 (by decide), ?_⟩
  exact h6.2.2.2 pendingT 9 none { remote_recipient := "rem" } (by decide) (by decide)

/-- C4 counterexample: after a concrete dial, the pending entry is present
(and no timeout transition of the transport exists to remove it), and the
late ConnectionResponse bearing that connection id does NOT produce
`NoConnectionForResponse`: it succeeds and creates an established Connection
in the connections table. -/
theorem claim4_counterexample :
    (mkTransport "self" 7 1 60).dial (fun x => some x) [Protocol.nym "rem"] 0 42
      = some (dialedT, Except.ok { connection_id := 0, timeout := 60 })
    ∧ lookupA dialedT.pending_dials 0 = some { remote_recipient := "rem" }
    ∧ (dialedT.handle_connection_response { peer_id := 9, id := 0 } none).2
        = Except.ok ()
    ∧ (dialedT.handle_connection_response { peer_id := 9, id := 0 } none).2
        ≠ Except.error Error.NoConnectionForResponse
    ∧ containsA (dialedT.handle_connection_response
        { peer_id := 9, id := 0 } none).1.connections 0 = true := by
  decide

/-- C4 amended: a dial leaves its pending entry stored and the transport has
no timeout-driven transition removing it, so after the dial future times out
the entry is still present; a later ConnectionResponse bearing that
connection id is matched against it — it succeeds, creates a Connection and
inserts it into the connections table, delivers it towards the (already
dropped) dial future, and only then removes the pending entry. -/
theorem claim4_stale_pending (fromStr : String → Option Recipient)
    (t : NymTransport) (addr : Multiaddr) (freshId : ConnectionId)
    (freshKp : Keypair) (respPeer : PeerId) (rtag : Option AnonymousSenderTag) :
    (∀ t' fut, t.dial fromStr addr freshId freshKp = some (t', Except.ok fut) →
      ∃ p : PendingConnection, lookupA t'.pending_dials freshId = some p)
    ∧ (∀ (t2 : NymTransport) (pending : PendingConnection),
        containsA t2.connections freshId = false →
        lookupA t2.pending_dials freshId = some pending →
        ∃ t3, t2.handle_connection_response { peer_id := respPeer, id := freshId } rtag
            = (t3, Except.ok ())
          ∧ containsA t3.connections freshId = true
          ∧ lookupA t3.pending_dials freshId = none
          ∧ t3.dial_resolved = t2.dial_resolved ++
              [(freshId, { peer_id := respPeer
                           remote_recipient := some pending.remote_recipient
                           id := freshId
                           sender_tag := rtag })]) := by
  constructor
  · intro t' fut hdial
    cases haddr : multiaddress_to_nym_address fromStr addr with
    | none => rw [NymTransport.dial, haddr] at hdial; exact absurd hdial (by simp)
    | some res =>
      cases res with
      | error e =>
        rw [NymTransport.dial, haddr] at hdial
        simp at hdial
      | ok r =>
        rw [NymTransport.dial, haddr] at hdial
        simp only [Option.some.injEq, Prod.mk.injEq] at hdial
        refine ⟨{ remote_recipient := r }, ?_⟩
        rw [← hdial.1]
        exact lookupA_insert_self _ _ _
  · intro t2 pending hc hp
    obtain ⟨t3, heq, hd, hpd, hcc, _⟩ :=
      handle_connection_response_pending t2 { peer_id := respPeer, id := freshId }
        rtag pending hc hp
    exact ⟨t3, heq, hcc, hpd, hd⟩

/-- C4 amended witness at the concrete dial scenario. -/
theorem claim4_stale_pending_witness :
    (∃ p : PendingConnection, lookupA dialedT.pending_dials 0 = some p)
    ∧ (∃ t3, pendingT.handle_connection_response { peer_id := 9, id := 0 } (some 5)
          = (t3, Except.ok ())
        ∧ containsA t3.connections 0 = true
        ∧ lookupA t3.pending_dials 0 = none
        ∧ t3.dial_resolved = pendingT.dial_resolved ++
            [(0, { peer_id := 9, remote_recipient := some "rem",
                   id := 0, sender_tag := some 5 })]) := by
  constructor
  · exact (claim4_stale_pending (fun x => some x) (mkTransport "self" 7 1 60)
      [Protocol.nym "rem"] 0 42 9 (some 5)).1 dialedT
      { connection_id := 0, timeout := 60 } (by decide)
  · exact (claim4_stale_pending (fun x => some x) (mkTransport "self" 7 1 60)
      [Protocol.nym "rem"] 0 42 9 (some 5)).2 pendingT
      { remote_recipient := "rem" } (by decide) (by decide)

/-- C10: the peer id carried in an outbound ConnectionRequest is derived
from the fresh keypair minted inside dial: every newly emitted request
envelope carries exactly the fresh keypair's peer id (so it differs from the
transport's own whenever the fresh key's derived id does), the envelopes
emitted by dial are identical for transports configured with different
keypairs, and only the ConnectionResponse emitted when handling a request
carries the transport's own peer id. -/
theorem claim10_fresh_peer_id (fromStr : String → Option Recipient)
    (t : NymTransport) (k1 k2 : Keypair) (addr : Multiaddr)
    (freshId : ConnectionId) (freshKp : Keypair) (cm : ConnectionMessage)
    (stag : Option AnonymousSenderTag) :
    (∀ t' fut, t.dial fromStr addr freshId freshKp = some (t', Except.ok fut) →
      ∃ rec, t'.outbound = t.outbound ++
        [{ message := Message.ConnectionRequest
            { peer_id := freshKp.publicPeerId, id := freshId }
           recipient := some rec
           sender_tag := none }])
    ∧ ((({ t with keypair := k1 } : NymTransport).dial fromStr addr freshId freshKp).map
          (fun d => (d.1.outbound, d.1.pending_dials, d.2))
        = (({ t with keypair := k2 } : NymTransport).dial fromStr addr freshId freshKp).map
          (fun d => (d.1.outbound, d.1.pending_dials, d.2)))
    ∧ (∀ t' fut, t.dial fromStr addr freshId freshKp = some (t', Except.ok fut) →
        ∀ env, env ∈ t'.outbound → env ∉ t.outbound →
        ∀ p, env.message = Message.ConnectionRequest p →
          p.peer_id = freshKp.publicPeerId)
    ∧ (∀ t' conn, t.handle_connection_request cm stag = (t', Except.ok conn) →
        ∃ env, t'.outbound = t.outbound ++ [env]
          ∧ env.message = Message.ConnectionResponse { peer_id := t.peer_id, id := cm.id }) := by
  refine ⟨?_, ?_, ?_, ?_⟩
  · intro t' fut hdial
    cases haddr : multiaddress_to_nym_address fromStr addr with
    | none => rw [NymTransport.dial, haddr] at hdial; exact absurd hdial (by simp)
    | some res =>
      cases res with
      | error e => rw [NymTransport.dial, haddr] at hdial; simp at hdial
      | ok r =>
        rw [NymTransport.dial, haddr] at hdial
        simp only [Option.some.injEq, Prod.mk.injEq] at hdial
        exact ⟨r, by rw [← hdial.1]⟩
  · cases haddr : multiaddress_to_nym_address fromStr addr with
    | none => simp [NymTransport.dial, haddr]
    | some res =>
      cases res with
      | error e => simp [NymTransport.dial, haddr]
      | ok r => simp [NymTransport.dial, haddr]
  · intro t' fut hdial env henv henvnot p hmsg
    cases haddr : multiaddress_to_nym_address fromStr addr with
    | none => rw [NymTransport.dial, haddr] at hdial; exact absurd hdial (by simp)
    | some res =>
      cases res with
      | error e => rw [NymTransport.dial, haddr] at hdial; simp at hdial
      | ok r =>
        rw [NymTransport.dial, haddr] at hdial
        simp only [Option.some.injEq, Prod.mk.injEq] at hdial
        rw [← hdial.1] at henv
        simp only [List.mem_append, List.mem_singleton] at henv
        cases henv with
        | inl hin => exact absurd hin henvnot
        | inr heq =>
          rw [heq] at hmsg
          simp only [Message.ConnectionRequest.injEq] at hmsg
          rw [← hmsg]
  · intro t' conn hreq
    cases hc : containsA t.connections cm.id with
    | true =>
      rw [handle_connection_request_known t cm stag hc] at hreq
      simp at hreq
    | false =>
      obtain ⟨t'', heq, hout, _⟩ := handle_connection_request_new t cm stag hc
      rw [heq] at hreq
      have ht : t' = t'' := by
        simp only [Prod.mk.injEq] at hreq
        exact hreq.1.symm
      subst ht
      exact ⟨_, hout, rfl⟩

/-- C10 witness: a concrete dial emits the fresh key's peer id, never the
transport's own; a concrete request handling emits the own peer id only in
the response. -/
theorem claim10_fresh_peer_id_witness :
    (∃ rec, dialedT.outbound = (mkTransport "self" 7 1 60).outbound ++
      [{ message := Message.ConnectionRequest { peer_id := 42, id := 0 }
         recipient := some rec
         sender_tag := none }])
    ∧ (∃ env, ((mkTransport "self" 7 1 60).handle_connection_request
          { peer_id := 9, id := 0 } (some 3)).1.outbound
        = (mkTransport "self" 7 1 60).outbound ++ [env]
      ∧ env.message = Message.ConnectionResponse { peer_id := 7, id := 0 }) := by
  constructor
  · exact (claim10_fresh_peer_id (fun x => some x) (mkTransport "self" 7 1 60)
      1 2 [Protocol.nym "rem"] 0 42 { peer_id := 9, id := 0 } (some 3)).1 dialedT
      { connection_id := 0, timeout := 60 } (by decide)
  · exact (claim10_fresh_peer_id (fun x => some x) (mkTransport "self" 7 1 60)
      1 2 [Protocol.nym "rem"] 0 42 { peer_id := 9, id := 0 } (some 3)).2.2.2
      ((mkTransport "self" 7 1 60).handle_connection_request
        { peer_id := 9, id := 0 } (some 3)).1
      { peer_id := 9, remote_recipient := none, id := 0, sender_tag := some 3 }
      (by decide)

@[simp] theorem noncesOf_nil : noncesOf [] = [] := rfl

@[simp] theorem noncesOf_cons (m : TransportMessage) (l : List TransportMessage) :
    noncesOf (m :: l) = m.nonce :: noncesOf l := rfl

@[simp] theorem noncesOf_append (l₁ l₂ : List TransportMessage) :
    noncesOf (l₁ ++ l₂) = noncesOf l₁ ++ noncesOf l₂ := by
  simp [noncesOf]

@[simp] theorem noncesOf_length (l : List TransportMessage) :
    (noncesOf l).length = l.length := by
  simp [noncesOf]

theorem insertByNonce_perm (m : TransportMessage) (l : List TransportMessage) :
    List.Perm (insertByNonce m l) (m :: l) := by
  induction l with
  | nil => simp [insertByNonce]
  | cons x xs ih =>
    rw [insertByNonce]
    split
    · exact List.Perm.refl _
    · exact List.Perm.trans (ih.cons x) (List.Perm.swap m x xs)

theorem mem_insertByNonce {y m : TransportMessage} {l : List TransportMessage} :
    y ∈ insertByNonce m l ↔ y = m ∨ y ∈ l := by
  rw [(insertByNonce_perm m l).mem_iff]
  simp

theorem pairwise_insertByNonce (m : TransportMessage) (l : List TransportMessage)
    (hfresh : ∀ x ∈ l, m.nonce ≠ x.nonce)
    (h : List.Pairwise (· < ·) (noncesOf l)) :
    List.Pairwise (· < ·) (noncesOf (insertByNonce m l)) := by
  induction l with
  | nil => simp [insertByNonce, noncesOf]
  | cons x xs ih =>
    rw [insertByNonce]
    rw [noncesOf_cons, List.pairwise_cons] at h
    split
    · rename_i hle
      have hne : m.nonce ≠ x.nonce := hfresh x (List.mem_cons_self x xs)
      have hlt : m.nonce < x.nonce := Nat.lt_of_le_of_ne hle hne
      rw [noncesOf_cons, noncesOf_cons, List.pairwise_cons]
      refine ⟨?_, ?_⟩
      · intro y hy
        rcases List.mem_cons.mp hy with hyx | hyxs
        · rw [hyx]; exact hlt
        · exact Nat.lt_trans hlt (h.1 y hyxs)
      · rw [List.pairwise_cons]
        exact h
    · rename_i hnle
      have hgt : x.nonce < m.nonce := Nat.lt_of_not_le hnle
      rw [noncesOf_cons, List.pairwise_cons]
      refine ⟨?_, ?_⟩
      · intro y hy
        have hperm : List.Perm (noncesOf (insertByNonce m xs)) (m.nonce :: noncesOf xs) := by
          have := (insertByNonce_perm m xs).map fun z => z.nonce
          simpa [noncesOf] using this
        have hy' : y ∈ m.nonce :: noncesOf xs := hperm.mem_iff.mp hy
        rcases List.mem_cons.mp hy' with hym | hyxs
        · rw [hym]; exact hgt
        · exact h.1 y hyxs
      · exact ih (fun z hz => hfresh z (List.mem_cons_of_mem x hz)) h.2

theorem try_push_release (q : MessageQueue) (msg : TransportMessage)
    (hc : q.connectionMessageReceived = true) (hn : msg.nonce = q.nextExpected) :
    q.try_push msg = ({ q with nextExpected := q.nextExpected + 1 }, some msg) := by
  simp [MessageQueue.try_push, hc, hn]

theorem try_push_buffer (q : MessageQueue) (msg : TransportMessage)
    (h : ¬(q.connectionMessageReceived = true ∧ msg.nonce = q.nextExpected)) :
    q.try_push msg = ({ q with buffered := insertByNonce msg q.buffered }, none) := by
  rw [MessageQueue.try_push, if_neg]
  exact h

theorem pop_armed (q : MessageQueue) (h : q.connectionMessageReceived = false) :
    q.pop = (q, none) := by
  simp [MessageQueue.pop, h]

theorem pop_empty (q : MessageQueue) (h : q.connectionMessageReceived = true)
    (hb : q.buffered = []) : q.pop = (q, none) := by
  simp [MessageQueue.pop, h, hb]

theorem pop_hit (q : MessageQueue) (m : TransportMessage) (rest : List TransportMessage)
    (h : q.connectionMessageReceived = true) (hb : q.buffered = m :: rest)
    (hn : m.nonce = q.nextExpected) :
    q.pop = ({ q with buffered := rest, nextExpected := q.nextExpected + 1 }, some m) := by
  simp [MessageQueue.pop, h, hb, hn]

theorem pop_miss (q : MessageQueue) (m : TransportMessage) (rest : List TransportMessage)
    (h : q.connectionMessageReceived = true) (hb : q.buffered = m :: rest)
    (hn : m.nonce ≠ q.nextExpected) : q.pop = (q, none) := by
  simp [MessageQueue.pop, h, hb, hn]

theorem range_append_range' (n k : Nat) :
    List.range n ++ List.range' n k = List.range (n + k) := by
  induction k with
  | zero => simp
  | succ j ih =>
    rw [List.range'_concat]
    rw [← List.append_assoc, ih]
    have : List.range (n + (j + 1)) = List.range (n + j + 1) := by
      rw [Nat.add_assoc]
    rw [this, List.range_succ]
    simp

theorem drainFuel_spec : ∀ (fuel : Nat) (q : MessageQueue),
    q.buffered.length ≤ fuel →
    q.connectionMessageReceived = true →
    List.Pairwise (· < ·) (noncesOf q.buffered) →
    (∀ m ∈ q.buffered, q.nextExpected ≤ m.nonce) →
    (MessageQueue.drainFuel fuel q).1.nextExpected
        = q.nextExpected + (MessageQueue.drainFuel fuel q).2.length
    ∧ noncesOf (MessageQueue.drainFuel fuel q).2
        = List.range' q.nextExpected (MessageQueue.drainFuel fuel q).2.length
    ∧ (MessageQueue.drainFuel fuel q).2 ++ (MessageQueue.drainFuel fuel q).1.buffered
        = q.buffered
    ∧ (∀ m ∈ (MessageQueue.drainFuel fuel q).1.buffered,
        (MessageQueue.drainFuel fuel q).1.nextExpected < m.nonce)
    ∧ List.Pairwise (· < ·) (noncesOf (MessageQueue.drainFuel fuel q).1.buffered) := by
  intro fuel
  induction fuel with
  | zero =>
    intro q hlen hc hp hb
    have hbuf : q.buffered = [] := List.eq_nil_of_length_eq_zero (Nat.le_zero.mp hlen)
    refine ⟨rfl, rfl, rfl, ?_, hp⟩
    intro x hx
    dsimp only [MessageQueue.drainFuel] at hx
    rw [hbuf] at hx
    exact absurd hx (List.not_mem_nil x)
  | succ n ih =>
    intro q hlen hc hp hb
    cases hbuf : q.buffered with
    | nil =>
      have hpop : q.pop = (q, none) := pop_empty q hc hbuf
      have hred : MessageQueue.drainFuel (n + 1) q = (q, []) := by
        simp [MessageQueue.drainFuel, hpop]
      rw [hred]
      refine ⟨rfl, rfl, by dsimp only; exact hbuf, ?_, hp⟩
      intro x hx
      dsimp only at hx
      rw [hbuf] at hx
      exact absurd hx (List.not_mem_nil x)
    | cons m rest =>
      rw [hbuf, noncesOf_cons, List.pairwise_cons] at hp
      by_cases hn : m.nonce = q.nextExpected
      · have hpop := pop_hit q m rest hc hbuf hn
        have hlen' : rest.length ≤ n := by
          rw [hbuf] at hlen
          simpa using hlen
        obtain ⟨ih1, ih2, ih3, ih4, ih5⟩ :=
          ih { q with buffered := rest, nextExpected := q.nextExpected + 1 }
            hlen' hc hp.2 (by
              intro x hx
              have hxn : m.nonce < x.nonce := hp.1 x.nonce (by
                simp only [noncesOf, List.mem_map]
                exact ⟨x, hx, rfl⟩)
              show q.nextExpected + 1 ≤ x.nonce
              omega)
        dsimp only at ih1 ih2 ih3 ih4 ih5
        have hred : MessageQueue.drainFuel (n + 1) q
            = ((MessageQueue.drainFuel n
                { q with buffered := rest, nextExpected := q.nextExpected + 1 }).1,
              m :: (MessageQueue.drainFuel n
                { q with buffered := rest, nextExpected := q.nextExpected + 1 }).2) := by
          simp [MessageQueue.drainFuel, hpop]
        rw [hred]
        dsimp only
        refine ⟨?_, ?_, ?_, ih4, ih5⟩
        · rw [List.length_cons, ih1]
          omega
        · rw [noncesOf_cons, ih2, hn, List.length_cons, List.range'_succ]
        · rw [List.cons_append, ih3]
      · have hpop := pop_miss q m rest hc hbuf hn
        have hred : MessageQueue.drainFuel (n + 1) q = (q, []) := by
          simp [MessageQueue.drainFuel, hpop]
        rw [hred]
        refine ⟨rfl, rfl, by dsimp only; exact hbuf, ?_, ?_⟩
        · intro x hx
          dsimp only at hx
          rw [hbuf] at hx
          have hle : q.nextExpected ≤ m.nonce :=
            hb m (by rw [hbuf]; exact List.mem_cons_self m rest)
          have hlt : q.nextExpected < m.nonce :=
            Nat.lt_of_le_of_ne hle (fun he => hn he.symm)
          rcases List.mem_cons.mp hx with hxm | hxr
          · rw [hxm]; exact hlt
          · refine Nat.lt_trans hlt (hp.1 x.nonce ?_)
            simp only [noncesOf, List.mem_map]
            exact ⟨x, hxr, rfl⟩
        · dsimp only
          rw [hbuf, noncesOf_cons]
          exact List.Pairwise.cons hp.1 hp.2

theorem drain_spec (q : MessageQueue)
    (hc : q.connectionMessageReceived = true)
    (hp : List.Pairwise (· < ·) (noncesOf q.buffered))
    (hb : ∀ m ∈ q.buffered, q.nextExpected ≤ m.nonce) :
    q.drain.1.nextExpected = q.nextExpected + q.drain.2.length
    ∧ noncesOf q.drain.2 = List.range' q.nextExpected q.drain.2.length
    ∧ q.drain.2 ++ q.drain.1.buffered = q.buffered
    ∧ (∀ m ∈ q.drain.1.buffered, q.drain.1.nextExpected < m.nonce)
    ∧ List.Pairwise (· < ·) (noncesOf q.drain.1.buffered) :=
  drainFuel_spec q.buffered.length q (Nat.le_refl _) hc hp hb

theorem mem_noncesOf {n : Nat} {l : List TransportMessage} :
    n ∈ noncesOf l ↔ ∃ m ∈ l, m.nonce = n := by
  simp [noncesOf]

/-- Per-connection invariant relating the demux channel contents (`some d`
when the connection is established), the reorder queue state and the list of
frames processed so far for that connection; a proof device for the
nonce-ordering theorem. -/
def ConnInvCore : Option (List TransportMessage) → Option MessageQueue →
    List TransportMessage → Prop
  | none, none, processed => processed = []
  | none, some q, processed =>
      q.connectionMessageReceived = false ∧ q.nextExpected = 0
      ∧ List.Pairwise (· < ·) (noncesOf q.buffered)
      ∧ List.Perm q.buffered processed
  | some d, some q, processed =>
      q.connectionMessageReceived = true
      ∧ noncesOf d = List.range q.nextExpected
      ∧ List.Pairwise (· < ·) (noncesOf q.buffered)
      ∧ (∀ m ∈ q.buffered, q.nextExpected < m.nonce)
      ∧ List.Perm (d ++ q.buffered) processed
  | some _, none, _ => False

/-- The invariant instantiated at a transport's lookups for a connection. -/
def ConnInv (t : NymTransport) (c : ConnectionId)
    (processed : List TransportMessage) : Prop :=
  ConnInvCore (lookupA t.connections c) (lookupA t.message_queues c) processed

theorem connInvCore_new : ConnInvCore none (some MessageQueue.new) [] := by
  refine ⟨rfl, rfl, ?_, ?_⟩ <;> simp [MessageQueue.new]

theorem connInvCore_activate_none (processed : List TransportMessage)
    (h : ConnInvCore none none processed) :
    ConnInvCore (some []) (some MessageQueue.new.set_connection_message_received)
      processed := by
  have hp : processed = [] := h
  subst hp
  refine ⟨rfl, by simp [MessageQueue.new, MessageQueue.set_connection_message_received],
    ?_, ?_, ?_⟩ <;>
    simp [MessageQueue.new, MessageQueue.set_connection_message_received]

theorem connInvCore_activate_some (q : MessageQueue) (processed : List TransportMessage)
    (h : ConnInvCore none (some q) processed) :
    ConnInvCore (some q.set_connection_message_received.drain.2)
      (some q.set_connection_message_received.drain.1) processed := by
  obtain ⟨hcmr, hne, hp, hperm⟩ := h
  have hc1 : q.set_connection_message_received.connectionMessageReceived = true := rfl
  have hb1 : ∀ m ∈ q.set_connection_message_received.buffered,
      q.set_connection_message_received.nextExpected ≤ m.nonce := by
    intro m _
    show q.nextExpected ≤ m.nonce
    rw [hne]
    exact Nat.zero_le _
  have hp1 : List.Pairwise (· < ·)
      (noncesOf q.set_connection_message_received.buffered) := hp
  obtain ⟨s1, s2, s3, s4, s5⟩ := drain_spec q.set_connection_message_received hc1 hp1 hb1
  refine ⟨?_, ?_, s5, s4, ?_⟩
  · rw [drain_cmr]; exact hc1
  · rw [s2, s1]
    have hne' : q.set_connection_message_received.nextExpected = 0 := hne
    rw [hne']
    rw [List.range_eq_range']
    simp
  · refine List.Perm.trans ?_ hperm
    rw [s3]
    exact List.Perm.refl _

theorem connInvCore_tmsg_armed (q : MessageQueue) (processed : List TransportMessage)
    (msg : TransportMessage) (h : ConnInvCore none (some q) processed)
    (hfresh : msg.nonce ∉ noncesOf processed) :
    (q.try_push msg).2 = none
    ∧ ConnInvCore none (some (q.try_push msg).1) (processed ++ [msg]) := by
  obtain ⟨hcmr, hne, hp, hperm⟩ := h
  have hcond : ¬(q.connectionMessageReceived = true ∧ msg.nonce = q.nextExpected) := by
    intro hcc
    rw [hcmr] at hcc
    exact absurd hcc.1 (by simp)
  rw [try_push_buffer q msg hcond]
  refine ⟨rfl, hcmr, hne, ?_, ?_⟩
  · apply pairwise_insertByNonce msg q.buffered ?_ hp
    intro x hx hcontra
    apply hfresh
    rw [hcontra]
    exact mem_noncesOf.mpr ⟨x, hperm.subset hx, rfl⟩
  · refine List.Perm.trans (insertByNonce_perm msg q.buffered) ?_
    refine List.Perm.trans (hperm.cons msg) ?_
    exact (List.perm_append_singleton msg processed).symm

theorem connInvCore_tmsg_estab_buffer (d : List TransportMessage) (q : MessageQueue)
    (processed : List TransportMessage) (msg : TransportMessage)
    (h : ConnInvCore (some d) (some q) processed)
    (hfresh : msg.nonce ∉ noncesOf processed)
    (hne : msg.nonce ≠ q.nextExpected) :
    (q.try_push msg).2 = none
    ∧ ConnInvCore (some d) (some (q.try_push msg).1) (processed ++ [msg]) := by
  obtain ⟨hcmr, hd, hp, hb, hperm⟩ := h
  have hcond : ¬(q.connectionMessageReceived = true ∧ msg.nonce = q.nextExpected) :=
    fun hcc => hne hcc.2
  rw [try_push_buffer q msg hcond]
  have hgt : q.nextExpected < msg.nonce := by
    have hnin : msg.nonce ∉ noncesOf d := by
      intro hin
      obtain ⟨x, hx, hxn⟩ := mem_noncesOf.mp hin
      apply hfresh
      exact mem_noncesOf.mpr ⟨x, hperm.subset (List.mem_append.mpr (Or.inl hx)), hxn⟩
    rw [hd, List.mem_range] at hnin
    omega
  refine ⟨rfl, hcmr, hd, ?_, ?_, ?_⟩
  · apply pairwise_insertByNonce msg q.buffered ?_ hp
    intro x hx hcontra
    apply hfresh
    rw [hcontra]
    exact mem_noncesOf.mpr ⟨x, hperm.subset (List.mem_append.mpr (Or.inr hx)), rfl⟩
  · intro x hx
    rcases mem_insertByNonce.mp hx with hxm | hxb
    · rw [hxm]; exact hgt
    · exact hb x hxb
  · refine List.Perm.trans (List.Perm.append_left d (insertByNonce_perm msg q.buffered)) ?_
    refine List.Perm.trans (@List.perm_middle _ msg d q.buffered) ?_
    refine List.Perm.trans (hperm.cons msg) ?_
    exact (List.perm_append_singleton msg processed).symm

theorem connInvCore_tmsg_estab_release (d : List TransportMessage) (q : MessageQueue)
    (processed : List TransportMessage) (msg : TransportMessage)
    (h : ConnInvCore (some d) (some q) processed)
    (heq : msg.nonce = q.nextExpected) :
    (q.try_push msg).2 = some msg
    ∧ ConnInvCore (some (d ++ msg :: (q.try_push msg).1.drain.2))
        (some (q.try_push msg).1.drain.1) (processed ++ [msg]) := by
  obtain ⟨hcmr, hd, hp, hb, hperm⟩ := h
  rw [try_push_release q msg hcmr heq]
  have hc1 : ({ q with nextExpected := q.nextExpected + 1 } :
      MessageQueue).connectionMessageReceived = true := hcmr
  have hb1 : ∀ m ∈ ({ q with nextExpected := q.nextExpected + 1 } :
      MessageQueue).buffered,
      ({ q with nextExpected := q.nextExpected + 1 } :
        MessageQueue).nextExpected ≤ m.nonce := by
    intro x hx
    have := hb x hx
    show q.nextExpected + 1 ≤ x.nonce
    omega
  obtain ⟨s1, s2, s3, s4, s5⟩ :=
    drain_spec { q with nextExpected := q.nextExpected + 1 } hc1 hp hb1
  dsimp only at s1 s2 s3 s4 s5
  refine ⟨rfl, ?_, ?_, s5, s4, ?_⟩
  · rw [drain_cmr]; exact hc1
  · rw [noncesOf_append, noncesOf_cons, hd, heq, s2, s1]
    rw [← List.range'_succ]
    have harr : q.nextExpected + 1 +
        ({ q with nextExpected := q.nextExpected + 1 } :
          MessageQueue).drain.2.length
        = q.nextExpected +
          (({ q with nextExpected := q.nextExpected + 1 } :
            MessageQueue).drain.2.length + 1) := by omega
    rw [harr, ← range_append_range']
  · rw [List.append_assoc, List.cons_append, s3]
    refine List.Perm.trans (@List.perm_middle _ msg d q.buffered) ?_
    refine List.Perm.trans (hperm.cons msg) ?_
    exact (List.perm_append_singleton msg processed).symm

/-- The queue lookup (or fresh queue) and `try_push` performed at the top of
`handle_transport_message`; named for use in the reduction lemmas below. -/
def pushResult (t : NymTransport) (msg : TransportMessage) :
    MessageQueue × Option TransportMessage :=
  ((lookupA t.message_queues msg.id).getD MessageQueue.new).try_push msg

theorem handle_transport_message_buffered (t : NymTransport) (msg : TransportMessage)
    (hpush : (pushResult t msg).2 = none) :
    t.handle_transport_message msg
      = ({ t with message_queues := insertA t.message_queues msg.id (pushResult t msg).1 },
        Except.ok ()) := by
  rcases hp : pushResult t msg with ⟨q1, om⟩
  have hp' : ((lookupA t.message_queues msg.id).getD MessageQueue.new).try_push msg
      = (q1, om) := hp
  rw [hp] at hpush
  dsimp only at hpush
  subst hpush
  simp [NymTransport.handle_transport_message, hp', hp]

theorem handle_transport_message_released (t : NymTransport) (msg : TransportMessage)
    (m : TransportMessage) (d : List TransportMessage)
    (hpush : (pushResult t msg).2 = some m)
    (hconn : lookupA t.connections msg.id = some d) :
    t.handle_transport_message msg
      = ({ t with
          message_queues := insertA t.message_queues msg.id (pushResult t msg).1.drain.1
          connections := insertA t.connections msg.id (d ++ m :: (pushResult t msg).1.drain.2) },
        Except.ok ()) := by
  rcases hp : pushResult t msg with ⟨q1, om⟩
  have hp' : ((lookupA t.message_queues msg.id).getD MessageQueue.new).try_push msg
      = (q1, om) := hp
  rw [hp] at hpush
  dsimp only at hpush
  subst hpush
  simp [NymTransport.handle_transport_message, hp', hp, hconn]

theorem handle_transport_message_frame (t : NymTransport) (msg : TransportMessage)
    (c : ConnectionId) (h : msg.id ≠ c) :
    lookupA (t.handle_transport_message msg).1.connections c = lookupA t.connections c
    ∧ lookupA (t.handle_transport_message msg).1.message_queues c
        = lookupA t.message_queues c := by
  rcases hp : ((lookupA t.message_queues msg.id).getD MessageQueue.new).try_push msg
    with ⟨q1, om⟩
  cases om with
  | none =>
    constructor <;>
      simp [NymTransport.handle_transport_message, hp, lookupA_insert_ne _ _ _ _ h]
  | some m =>
    cases hc : lookupA t.connections msg.id with
    | none =>
      constructor <;> simp [NymTransport.handle_transport_message, hp, hc]
    | some d =>
      constructor <;>
        simp [NymTransport.handle_transport_message, hp, hc, lookupA_insert_ne _ _ _ _ h]

theorem handle_connection_request_frame (t : NymTransport) (cm : ConnectionMessage)
    (tag : Option AnonymousSenderTag) (c : ConnectionId) (h : cm.id ≠ c) :
    lookupA (t.handle_connection_request cm tag).1.connections c
        = lookupA t.connections c
    ∧ lookupA (t.handle_connection_request cm tag).1.message_queues c
        = lookupA t.message_queues c := by
  cases hcc : containsA t.connections cm.id with
  | true =>
    rw [handle_connection_request_known t cm tag hcc]
    exact ⟨rfl, rfl⟩
  | false =>
    cases hq : lookupA t.message_queues cm.id with
    | none =>
      constructor <;>
        simp [NymTransport.handle_connection_request, hcc,
          NymTransport.handle_message_queue_on_connection_initiation,
          lookupA_insert_self, hq, lookupA_insert_ne _ _ _ _ h]
    | some q =>
      constructor <;>
        simp [NymTransport.handle_connection_request, hcc,
          NymTransport.handle_message_queue_on_connection_initiation,
          lookupA_insert_self, hq, lookupA_insert_ne _ _ _ _ h]

theorem handle_connection_response_frame (t : NymTransport) (cm : ConnectionMessage)
    (tag : Option AnonymousSenderTag) (c : ConnectionId) (h : cm.id ≠ c) :
    lookupA (t.handle_connection_response cm tag).1.connections c
        = lookupA t.connections c
    ∧ lookupA (t.handle_connection_response cm tag).1.message_queues c
        = lookupA t.message_queues c := by
  cases hcc : containsA t.connections cm.id with
  | true =>
    rw [handle_connection_response_known t cm tag hcc]
    exact ⟨rfl, rfl⟩
  | false =>
    cases hpd : lookupA t.pending_dials cm.id with
    | none =>
      rw [handle_connection_response_no_pending t cm tag hcc hpd]
      exact ⟨rfl, rfl⟩
    | some pending =>
      cases hq : lookupA t.message_queues cm.id with
      | none =>
        constructor <;>
          simp [NymTransport.handle_connection_response, hcc, hpd,
            NymTransport.handle_message_queue_on_connection_initiation,
            lookupA_insert_self, hq, lookupA_insert_ne _ _ _ _ h]
      | some q =>
        constructor <;>
          simp [NymTransport.handle_connection_response, hcc, hpd,
            NymTransport.handle_message_queue_on_connection_initiation,
            lookupA_insert_self, hq, lookupA_insert_ne _ _ _ _ h]

theorem ConnInv_step_tmsg (t : NymTransport) (msg : TransportMessage)
    (processed : List TransportMessage)
    (hinv : ConnInv t msg.id processed)
    (hfresh : msg.nonce ∉ noncesOf processed) :
    ConnInv (t.handle_transport_message msg).1 msg.id (processed ++ [msg])
    ∧ (t.handle_transport_message msg).2 = Except.ok () := by
  unfold ConnInv at hinv ⊢
  cases hcl : lookupA t.connections msg.id with
  | none =>
    cases hql : lookupA t.message_queues msg.id with
    | none =>
      rw [hcl, hql] at hinv
      have hinv' : ConnInvCore none (some MessageQueue.new) processed := by
        have hpz : processed = [] := hinv
        rw [hpz]
        exact connInvCore_new
      obtain ⟨hpush, hcore⟩ :=
        connInvCore_tmsg_armed MessageQueue.new processed msg hinv' hfresh
      have hpush' : (pushResult t msg).2 = none := by
        simp only [pushResult, hql, Option.getD_none]
        exact hpush
      rw [handle_transport_message_buffered t msg hpush']
      refine ⟨?_, rfl⟩
      dsimp only
      rw [hcl, lookupA_insert_self]
      have h1 : (pushResult t msg).1 = (MessageQueue.new.try_push msg).1 := by
        simp only [pushResult, hql, Option.getD_none]
      rw [h1]
      exact hcore
    | some q =>
      rw [hcl, hql] at hinv
      obtain ⟨hpush, hcore⟩ := connInvCore_tmsg_armed q processed msg hinv hfresh
      have hpush' : (pushResult t msg).2 = none := by
        simp only [pushResult, hql, Option.getD_some]
        exact hpush
      rw [handle_transport_message_buffered t msg hpush']
      refine ⟨?_, rfl⟩
      dsimp only
      rw [hcl, lookupA_insert_self]
      have h1 : (pushResult t msg).1 = (q.try_push msg).1 := by
        simp only [pushResult, hql, Option.getD_some]
      rw [h1]
      exact hcore
  | some d =>
    cases hql : lookupA t.message_queues msg.id with
    | none =>
      rw [hcl, hql] at hinv
      exact hinv.elim
    | some q =>
      rw [hcl, hql] at hinv
      by_cases heq : msg.nonce = q.nextExpected
      · obtain ⟨hpush, hcore⟩ := connInvCore_tmsg_estab_release d q processed msg hinv heq
        have hpush' : (pushResult t msg).2 = some msg := by
          simp only [pushResult, hql, Option.getD_some]
          exact hpush
        rw [handle_transport_message_released t msg msg d hpush' hcl]
        refine ⟨?_, rfl⟩
        dsimp only
        rw [lookupA_insert_self, lookupA_insert_self]
        have h1 : (pushResult t msg).1 = (q.try_push msg).1 := by
          simp only [pushResult, hql, Option.getD_some]
        rw [h1]
        exact hcore
      · obtain ⟨hpush, hcore⟩ :=
          connInvCore_tmsg_estab_buffer d q processed msg hinv hfresh heq
        have hpush' : (pushResult t msg).2 = none := by
          simp only [pushResult, hql, Option.getD_some]
          exact hpush
        rw [handle_transport_message_buffered t msg hpush']
        refine ⟨?_, rfl⟩
        dsimp only
        rw [hcl, lookupA_insert_self]
        have h1 : (pushResult t msg).1 = (q.try_push msg).1 := by
          simp only [pushResult, hql, Option.getD_some]
        rw [h1]
        exact hcore

theorem ConnInv_step_request (t : NymTransport) (cm : ConnectionMessage)
    (tag : Option AnonymousSenderTag) (processed : List TransportMessage)
    (hinv : ConnInv t cm.id processed) :
    ConnInv (t.handle_connection_request cm tag).1 cm.id processed := by
  cases hc : containsA t.connections cm.id with
  | true =>
    rw [handle_connection_request_known t cm tag hc]
    exact hinv
  | false =>
    obtain ⟨t', heq, _hout, _hconn, _hq, hqnone, hqsome, _, _, _, _⟩ :=
      handle_connection_request_new t cm tag hc
    rw [heq]
    unfold ConnInv at hinv ⊢
    have hcl := containsA_false hc
    cases hql : lookupA t.message_queues cm.id with
    | none =>
      obtain ⟨hq1, hc1⟩ := hqnone hql
      rw [hc1, hq1]
      rw [hcl, hql] at hinv
      exact connInvCore_activate_none processed hinv
    | some q =>
      obtain ⟨hq1, hc1⟩ := hqsome q hql
      rw [hc1, hq1]
      rw [hcl, hql] at hinv
      exact connInvCore_activate_some q processed hinv

theorem ConnInv_step_response (t : NymTransport) (cm : ConnectionMessage)
    (tag : Option AnonymousSenderTag) (processed : List TransportMessage)
    (hinv : ConnInv t cm.id processed) :
    ConnInv (t.handle_connection_response cm tag).1 cm.id processed := by
  cases hc : containsA t.connections cm.id with
  | true =>
    rw [handle_connection_response_known t cm tag hc]
    exact hinv
  | false =>
    cases hpd : lookupA t.pending_dials cm.id with
    | none =>
      rw [handle_connection_response_no_pending t cm tag hc hpd]
      exact hinv
    | some pending =>
      obtain ⟨t', heq, _hd, _hpd2, _hcc, _hq, hqnone, hqsome, _, _⟩ :=
        handle_connection_response_pending t cm tag pending hc hpd
      rw [heq]
      unfold ConnInv at hinv ⊢
      have hcl := containsA_false hc
      cases hql : lookupA t.message_queues cm.id with
      | none =>
        obtain ⟨hq1, hc1⟩ := hqnone hql
        rw [hc1, hq1]
        rw [hcl, hql] at hinv
        exact connInvCore_activate_none processed hinv
      | some q =>
        obtain ⟨hq1, hc1⟩ := hqsome q hql
        rw [hc1, hq1]
        rw [hcl, hql] at hinv
        exact connInvCore_activate_some q processed hinv

theorem handle_inbound_request_state (t : NymTransport) (cm : ConnectionMessage)
    (tag : Option AnonymousSenderTag) :
    (t.handle_inbound (Message.ConnectionRequest cm) tag).1
      = (t.handle_connection_request cm tag).1 := by
  rcases hs : t.handle_connection_request cm tag with ⟨t1, r⟩
  cases r <;> simp [NymTransport.handle_inbound, hs]

theorem handle_inbound_response_state (t : NymTransport) (cm : ConnectionMessage)
    (tag : Option AnonymousSenderTag) :
    (t.handle_inbound (Message.ConnectionResponse cm) tag).1
      = (t.handle_connection_response cm tag).1 := by
  simp [NymTransport.handle_inbound]

theorem handle_inbound_tmsg_state (t : NymTransport) (m : TransportMessage)
    (tag : Option AnonymousSenderTag) :
    (t.handle_inbound (Message.TransportMessage m) tag).1
      = (t.handle_transport_message m).1 := by
  simp [NymTransport.handle_inbound]

theorem ConnInv_processInbound :
    ∀ (evs : List (Message × Option AnonymousSenderTag)) (t : NymTransport)
      (c : ConnectionId) (processed : List TransportMessage),
    ConnInv t c processed →
    List.Nodup (noncesOf (processed ++ tmsgsFor evs c)) →
    ConnInv (processInbound t evs) c (processed ++ tmsgsFor evs c) := by
  intro evs
  induction evs with
  | nil =>
    intro t c processed h _
    simpa [processInbound, tmsgsFor] using h
  | cons ev rest ih =>
    intro t c processed h hnd
    rcases ev with ⟨msg, tag⟩
    cases msg with
    | ConnectionRequest cm =>
      have htf : tmsgsFor ((Message.ConnectionRequest cm, tag) :: rest) c
          = tmsgsFor rest c := by simp [tmsgsFor]
      rw [htf] at hnd ⊢
      have hs : ConnInv (t.handle_inbound (Message.ConnectionRequest cm) tag).1
          c processed := by
        rw [handle_inbound_request_state]
        by_cases hid : cm.id = c
        · subst hid
          exact ConnInv_step_request t cm tag processed h
        · unfold ConnInv at h ⊢
          obtain ⟨f1, f2⟩ := handle_connection_request_frame t cm tag c hid
          rw [f1, f2]
          exact h
      have hrec := ih (t.handle_inbound (Message.ConnectionRequest cm) tag).1
        c processed hs hnd
      simpa [processInbound] using hrec
    | ConnectionResponse cm =>
      have htf : tmsgsFor ((Message.ConnectionResponse cm, tag) :: rest) c
          = tmsgsFor rest c := by simp [tmsgsFor]
      rw [htf] at hnd ⊢
      have hs : ConnInv (t.handle_inbound (Message.ConnectionResponse cm) tag).1
          c processed := by
        rw [handle_inbound_response_state]
        by_cases hid : cm.id = c
        · subst hid
          exact ConnInv_step_response t cm tag processed h
        · unfold ConnInv at h ⊢
          obtain ⟨f1, f2⟩ := handle_connection_response_frame t cm tag c hid
          rw [f1, f2]
          exact h
      have hrec := ih (t.handle_inbound (Message.ConnectionResponse cm) tag).1
        c processed hs hnd
      simpa [processInbound] using hrec
    | TransportMessage tm =>
      by_cases hid : tm.id = c
      · subst hid
        have htf : tmsgsFor ((Message.TransportMessage tm, tag) :: rest) tm.id
            = tm :: tmsgsFor rest tm.id := by simp [tmsgsFor]
        rw [htf] at hnd ⊢
        have hfresh : tm.nonce ∉ noncesOf processed := by
          rw [noncesOf_append, noncesOf_cons] at hnd
          have h2 := (@List.perm_middle _ tm.nonce (noncesOf processed)
            (noncesOf (tmsgsFor rest tm.id))).nodup hnd
          rw [List.nodup_cons] at h2
          intro hm
          exact h2.1 (List.mem_append.mpr (Or.inl hm))
        obtain ⟨hstep, _hok⟩ := ConnInv_step_tmsg t tm processed h hfresh
        have hs : ConnInv (t.handle_inbound (Message.TransportMessage tm) tag).1
            tm.id (processed ++ [tm]) := by
          rw [handle_inbound_tmsg_state]
          exact hstep
        have hnd' : List.Nodup
            (noncesOf ((processed ++ [tm]) ++ tmsgsFor rest tm.id)) := by
          rw [List.append_assoc]
          simpa using hnd
        have hrec := ih (t.handle_inbound (Message.TransportMessage tm) tag).1
          tm.id (processed ++ [tm]) hs hnd'
        rw [List.append_assoc] at hrec
        simpa [processInbound] using hrec
      · have htf : tmsgsFor ((Message.TransportMessage tm, tag) :: rest) c
            = tmsgsFor rest c := by simp [tmsgsFor, hid]
        rw [htf] at hnd ⊢
        have hs : ConnInv (t.handle_inbound (Message.TransportMessage tm) tag).1
            c processed := by
          rw [handle_inbound_tmsg_state]
          unfold ConnInv at h ⊢
          obtain ⟨f1, f2⟩ := handle_transport_message_frame t tm c hid
          rw [f1, f2]
          exact h
        have hrec := ih (t.handle_inbound (Message.TransportMessage tm) tag).1
          c processed hs hnd
        simpa [processInbound] using hrec

/-- C1: processing any inbound trace from a fresh transport, for every
connection whose transport-message nonces arrive without duplicates, the
sequence of frames forwarded to that connection's inbound demux carries the
nonces `0, 1, 2, …` in strictly increasing order with no gaps, and every
frame that arrived for the connection is either delivered or still buffered
(no drops, no duplicates); moreover an arriving TransportMessage whose
connection id has no queue creates an armed queue holding the message, with
no error. -/
theorem claim1_inbound_nonce_order (sa : Recipient) (kp : Keypair) (lid tmo : Nat)
    (evs : List (Message × Option AnonymousSenderTag)) (c : ConnectionId)
    (hnodup : List.Nodup (noncesOf (tmsgsFor evs c))) :
    noncesOf (deliveredFor (processInbound (mkTransport sa kp lid tmo) evs) c)
        = List.range
          (deliveredFor (processInbound (mkTransport sa kp lid tmo) evs) c).length
    ∧ List.Perm
        (deliveredFor (processInbound (mkTransport sa kp lid tmo) evs) c
          ++ bufferedFor (processInbound (mkTransport sa kp lid tmo) evs) c)
        (tmsgsFor evs c)
    ∧ (∀ (t : NymTransport) (msg : TransportMessage),
        lookupA t.message_queues msg.id = none →
        (t.handle_transport_message msg).2 = Except.ok ()
        ∧ lookupA (t.handle_transport_message msg).1.message_queues msg.id
            = some { connectionMessageReceived := false, nextExpected := 0,
                     buffered := [msg] }) := by
  have hinit : ConnInv (mkTransport sa kp lid tmo) c [] := by
    unfold ConnInv
    have h1 : lookupA (mkTransport sa kp lid tmo).connections c = none := rfl
    have h2 : lookupA (mkTransport sa kp lid tmo).message_queues c = none := rfl
    rw [h1, h2]
    exact rfl
  have hfin := ConnInv_processInbound evs (mkTransport sa kp lid tmo) c []
    hinit (by simpa using hnodup)
  rw [List.nil_append] at hfin
  unfold ConnInv at hfin
  refine ⟨?_, ?_, ?_⟩
  · cases hcl : lookupA (processInbound (mkTransport sa kp lid tmo) evs).connections c with
    | none => simp [deliveredFor, hcl]
    | some d =>
      cases hql : lookupA
          (processInbound (mkTransport sa kp lid tmo) evs).message_queues c with
      | none =>
        rw [hcl, hql] at hfin
        exact hfin.elim
      | some q =>
        rw [hcl, hql] at hfin
        obtain ⟨_, hd, _, _, _⟩ := hfin
        rw [deliveredFor, hcl]
        have hlen : d.length = q.nextExpected := by
          have := congrArg List.length hd
          simpa using this
        simp only [Option.getD_some]
        rw [hd, hlen]
  · cases hcl : lookupA (processInbound (mkTransport sa kp lid tmo) evs).connections c with
    | none =>
      cases hql : lookupA
          (processInbound (mkTransport sa kp lid tmo) evs).message_queues c with
      | none =>
        rw [hcl, hql] at hfin
        rw [deliveredFor, bufferedFor, hcl, hql, hfin]
        exact List.Perm.refl _
      | some q =>
        rw [hcl, hql] at hfin
        obtain ⟨_, _, _, hperm⟩ := hfin
        rw [deliveredFor, bufferedFor, hcl, hql]
        simpa using hperm
    | some d =>
      cases hql : lookupA
          (processInbound (mkTransport sa kp lid tmo) evs).message_queues c with
      | none =>
        rw [hcl, hql] at hfin
        exact hfin.elim
      | some q =>
        rw [hcl, hql] at hfin
        obtain ⟨_, _, _, _, hperm⟩ := hfin
        rw [deliveredFor, bufferedFor, hcl, hql]
        simpa using hperm
  · intro t msg hq
    have hcond : ¬(MessageQueue.new.connectionMessageReceived = true
        ∧ msg.nonce = MessageQueue.new.nextExpected) := by
      simp [MessageQueue.new]
    have hpush : (pushResult t msg).2 = none := by
      simp only [pushResult, hq, Option.getD_none]
      rw [try_push_buffer MessageQueue.new msg hcond]
    rw [handle_transport_message_buffered t msg hpush]
    refine ⟨rfl, ?_⟩
    dsimp only
    rw [lookupA_insert_self]
    simp only [pushResult, hq, Option.getD_none]
    rw [try_push_buffer MessageQueue.new msg hcond]
    simp [MessageQueue.new, insertByNonce]

/-- A concrete inbound trace: a connection request for id 0 followed by
frames with nonces 2, 0, 1 for that connection. -/
def c1evs : List (Message × Option AnonymousSenderTag) :=
  [(Message.ConnectionRequest { peer_id := 9, id := 0 }, some 3),
   (Message.TransportMessage
     { nonce := 2, id := 0, message := { substream_id := 5, kind := SubstreamMessageKind.Close } },
    none),
   (Message.TransportMessage
     { nonce := 0, id := 0, message := { substream_id := 5, kind := SubstreamMessageKind.OpenRequest } },
    none),
   (Message.TransportMessage
     { nonce := 1, id := 0, message := { substream_id := 5, kind := SubstreamMessageKind.OpenResponse } },
    none)]

/-- C1 witness: on the concrete out-of-order trace the delivered nonces come
out as 0, 1, 2. -/
theorem claim1_inbound_nonce_order_witness :
    List.Nodup (noncesOf (tmsgsFor c1evs 0))
    ∧ (noncesOf (deliveredFor (processInbound (mkTransport "self" 7 1 60) c1evs) 0)
        = List.range
          (deliveredFor (processInbound (mkTransport "self" 7 1 60) c1evs) 0).length
      ∧ List.Perm
          (deliveredFor (processInbound (mkTransport "self" 7 1 60) c1evs) 0
            ++ bufferedFor (processInbound (mkTransport "self" 7 1 60) c1evs) 0)
          (tmsgsFor c1evs 0)
      ∧ (∀ (t : NymTransport) (msg : TransportMessage),
          lookupA t.message_queues msg.id = none →
          (t.handle_transport_message msg).2 = Except.ok ()
          ∧ lookupA (t.handle_transport_message msg).1.message_queues msg.id
              = some { connectionMessageReceived := false, nextExpected := 0,
                       buffered := [msg] })) :=
  ⟨by decide, claim1_inbound_nonce_order "self" 7 1 60 c1evs 0 (by decide)⟩
